import Mathlib

/-!
# Receive path of the mlx5en driver (`mlx5_en_rx.c`)

A shallow embedding of `mlx5e_alloc_rx_wqe`, `mlx5e_post_rx_wqes`,
`mlx5e_build_rx_mbuf` and `mlx5e_poll_rx_cq`.

* The receive queue is an explicit state `Rq`; every function maps a state to a
  new state.  A result of `none` stands for undefined behaviour of the C code
  (a NULL dereference or an access outside the descriptor or slot array).
* Calls that leave the driver (buffer pool, DMA layer, LRO, network stack,
  fences, doorbell stores) are recorded, in program order, in `Rq.trace`.
* The buffer pool, `m_adj`, the DMA layer and `tcp_lro_rx` are kernel code
  outside the driver; they are the fields of `Env`, and every theorem holds
  for all of them.
* The work queue and completion queue primitives live in headers (`wq.h`,
  `en.h`) that accompany `mlx5_en_rx.c`; they are modelled from the written
  specification of the ring primitives.
-/

set_option autoImplicit false

namespace Mlx5

/-! ## Constants -/

/-- The left pad `MLX5E_NET_IP_ALIGN`, two bytes. -/
def MLX5E_NET_IP_ALIGN : Nat := 2

/-- Errno value `ENOMEM`. -/
def ENOMEM : Int := 12

/-- Opcode `MLX5_CQE_RESP_SEND` of a successful receive completion. -/
def MLX5_CQE_RESP_SEND : Nat := 0x2

/-- Ownership (phase) bit of `op_own`. -/
def MLX5_CQE_OWNER_MASK : Nat := 1

/-- Bit `CQE_L2_OK` of `hds_ip_ext`. -/
def CQE_L2_OK : Nat := 1

/-- Bit `CQE_L3_OK` of `hds_ip_ext`. -/
def CQE_L3_OK : Nat := 2

/-- Bit `CQE_L4_OK` of `hds_ip_ext`. -/
def CQE_L4_OK : Nat := 4

/-- Interface capability bit `IFCAP_RXCSUM` (net/if.h). -/
def IFCAP_RXCSUM : Nat := 0x00001

/-- Interface capability bit `IFCAP_LRO` (net/if.h). -/
def IFCAP_LRO : Nat := 0x00400

/-- Checksum flag `CSUM_IP_CHECKED` (sys/mbuf.h). -/
def CSUM_IP_CHECKED : Nat := 0x01000000

/-- Checksum flag `CSUM_IP_VALID` (sys/mbuf.h). -/
def CSUM_IP_VALID : Nat := 0x02000000

/-- Checksum flag `CSUM_DATA_VALID` (sys/mbuf.h). -/
def CSUM_DATA_VALID : Nat := 0x04000000

/-- Checksum flag `CSUM_PSEUDO_HDR` (sys/mbuf.h). -/
def CSUM_PSEUDO_HDR : Nat := 0x08000000

/-- Packet flag `M_VLANTAG` (sys/mbuf.h). -/
def M_VLANTAG : Nat := 0x00000080

/-- Hash type `M_HASHTYPE_OPAQUE` (sys/mbuf.h). -/
def M_HASHTYPE_OPAQUE : Nat := 255

/-! ## Data model -/

/-- Direction argument of the DMA layer. -/
inductive DmaDir where
  | DMA_BIDIRECTIONAL
  | DMA_TO_DEVICE
  | DMA_FROM_DEVICE
  deriving DecidableEq

/-- The fields of `struct ifnet` read by the receive path. -/
structure NetDevice where
  if_capabilities : Nat
  if_capenable : Nat
  deriving DecidableEq

/-- The fields of `struct mbuf` touched by the receive path.  `dma_addr` is the
side channel `MLX5E_RX_MBUF_DMA_ADDR(mb)`. -/
structure Mbuf where
  m_data : Int
  m_len : Nat
  m_flags : Nat
  pkthdr_len : Nat
  flowid : Nat
  hashtype : Nat
  rcvif : Option NetDevice
  csum_flags : Nat
  csum_data : Nat
  ether_vtag : Nat
  dma_addr : Nat
  deriving DecidableEq

/-- Receive descriptor `struct mlx5e_rx_wqe`: the free-list link
`next.next_wqe_index` (big-endian 16 bit, as stored) and `data.addr`
(big-endian 64 bit, as stored). -/
structure RxWqe where
  next_wqe_index : Nat
  addr : Nat
  deriving DecidableEq

/-- Completion record `struct mlx5_cqe64`, the fields the driver reads.
Multi-byte fields hold the stored big-endian value.  `has_vlan` is the
VLAN-present indicator tested by `cqe_has_vlan`. -/
structure Cqe where
  byte_cnt : Nat
  wqe_counter : Nat
  op_own : Nat
  hds_ip_ext : Nat
  vlan_info : Nat
  has_vlan : Bool
  deriving DecidableEq

/-- Modelled from the spec: the linked work queue `struct mlx5_wq_ll` (wq.h is
missing), a free list of descriptor slots chained through the descriptors' `next`
fields: the slot at the front (`head`), the number of slots on the free list
(`free_cnt`), the count of pushes (`wqe_ctr`), the doorbell cell (`db`) and the
descriptor array (`wqes`). -/
structure WqLl where
  head : Nat
  free_cnt : Nat
  wqe_ctr : Nat
  db : Nat
  wqes : List RxWqe
  deriving DecidableEq

/-- Modelled from the spec: the completion queue `struct mlx5_cqwq` (wq.h is
missing): the record array, the consumer index `ci` and the doorbell cell. -/
structure Cqwq where
  ci : Nat
  db : Nat
  entries : List Cqe
  deriving DecidableEq

/-- The counters `rq->stats`. -/
structure RqStats where
  packets : Nat
  wqe_err : Nat
  csum_none : Nat
  deriving DecidableEq

/-- The fields of `struct lro_ctrl` read by the poller; entries are named by
numbers. -/
structure LroCtrl where
  lro_cnt : Nat
  lro_active : List Nat
  deriving DecidableEq

/-- One call that leaves the driver, or one store the device can observe:
`mGet` a buffer-pool call with its result, `mFree` a call of `m_freem`, `dmaMap`
and `dmaUnmap` the DMA calls with their arguments (and, for the map, the bus
address returned), `wqeWrite` the store of `data.addr` into a descriptor,
`wqPush` and `wqPop` the work-queue operations on a slot, `cqPop` the consumption
of the completion at a consumer index, `wmb` the fence, `wqDoorbell` and
`cqDoorbell` the doorbell stores, `lroRx` a call of `tcp_lro_rx` with its return
value, `ifInput` a call of `if_input`, `lroFlush` a call of `tcp_lro_flush`. -/
inductive Event where
  | mGet (size : Nat) (res : Option Mbuf)
  | mFree (mb : Mbuf)
  | dmaMap (start : Int) (size : Nat) (dir : DmaDir) (addr : Nat)
  | dmaUnmap (addr : Nat) (size : Nat) (dir : DmaDir)
  | wqeWrite (ix : Nat)
  | wqPush (ix : Nat)
  | wqPop (ix : Nat)
  | cqPop (ci : Nat)
  | wmb
  | wqDoorbell (v : Nat)
  | cqDoorbell (v : Nat)
  | lroRx (mb : Mbuf) (ret : Int)
  | ifInput (mb : Mbuf)
  | lroFlush (e : Nat)
  deriving DecidableEq

/-- Receive queue `struct mlx5e_rq`, together with the number of buffer-pool
and DMA-map calls made so far and the trace of events. -/
structure Rq where
  wq : WqLl
  cq : Cqwq
  mbuf : List (Option Mbuf)
  wqe_sz : Nat
  enabled : Nat
  ix : Nat
  netdev : NetDevice
  stats : RqStats
  lro : LroCtrl
  nalloc : Nat
  nmap : Nat
  trace : List Event
  deriving DecidableEq

/-- Kernel services outside the driver.  `m_get2 i size` is the result of the
`i`-th buffer-pool call, `dma_map_single i start size` the bus address returned
by the `i`-th map call. -/
structure Env where
  littleEndian : Bool
  m_get2 : Nat → Nat → Option Mbuf
  m_adj : Mbuf → Nat → Mbuf
  dma_map_single : Nat → Int → Nat → Nat
  dma_mapping_error : Nat → Bool
  tcp_lro_rx : LroCtrl → Mbuf → Int × LroCtrl

/-! ## Byte order -/

/-- Reversal of the low `n` bytes of `x`. -/
def bswap : Nat → Nat → Nat
  | 0, _ => 0
  | n + 1, x => (x % 256) * 256 ^ n + bswap n (x / 256)

/-- Conversion between host order and big-endian order of an `n`-byte value. -/
def cpu_be (env : Env) (n : Nat) (x : Nat) : Nat :=
  if env.littleEndian then bswap n x else x % 256 ^ n

/-- The macro `be16_to_cpu`. -/
def be16_to_cpu (env : Env) (x : Nat) : Nat := cpu_be env 2 x

/-- The macro `cpu_to_be16`. -/
def cpu_to_be16 (env : Env) (x : Nat) : Nat := cpu_be env 2 x

/-- The macro `be32_to_cpu`. -/
def be32_to_cpu (env : Env) (x : Nat) : Nat := cpu_be env 4 x

/-- The macro `cpu_to_be64`. -/
def cpu_to_be64 (env : Env) (x : Nat) : Nat := cpu_be env 8 x

/-- The macro `htons`. -/
def htons (env : Env) (x : Nat) : Nat := cpu_be env 2 x

/-! ## Ring primitives -/

/-- Modelled from the spec: `mlx5_wq_ll_is_full` (wq.h is missing), true when
the free list is empty. -/
def mlx5_wq_ll_is_full (wq : WqLl) : Bool := wq.free_cnt == 0

/-- Modelled from the spec: `mlx5_wq_ll_push` (wq.h is missing) consumes the
slot currently at `head`, advances `head` to `head_next` and increments
`wqe_ctr`. -/
def mlx5_wq_ll_push (wq : WqLl) (head_next : Nat) : WqLl :=
  { wq with head := head_next, wqe_ctr := wq.wqe_ctr + 1, free_cnt := wq.free_cnt - 1 }

/-- Modelled from the spec: `mlx5_wq_ll_pop` (wq.h is missing) releases the slot
`ix` (big-endian) back onto the free list: it writes the old `head` to the `next`
field of descriptor `wqe_ix` and sets `head` to the released slot.  A descriptor
outside the array is undefined behaviour. -/
def mlx5_wq_ll_pop (env : Env) (wq : WqLl) (ix : Nat) (wqe_ix : Nat) : Option WqLl :=
  match wq.wqes[wqe_ix]? with
  | none => none
  | some wqe =>
    some { wq with
      wqes := wq.wqes.set wqe_ix { wqe with next_wqe_index := cpu_to_be16 env wq.head },
      head := be16_to_cpu env ix,
      free_cnt := wq.free_cnt + 1 }

/-- Modelled from the spec: `mlx5_wq_ll_update_db_record` (wq.h is missing)
publishes `head` to the doorbell cell. -/
def mlx5_wq_ll_update_db_record (wq : WqLl) : WqLl :=
  { wq with db := wq.head }

/-- Modelled from the spec: the record at index `i` of the completion queue,
`i & (n - 1)` for a queue of `n` records. -/
def cqwq_get_wqe (cq : Cqwq) (i : Nat) : Option Cqe :=
  cq.entries[i &&& (cq.entries.length - 1)]?

/-- Modelled from the spec: a record is valid at index `i` when its ownership
bit matches the phase of the wrap `i` lies in. -/
def cqe_valid (cq : Cqwq) (i : Nat) : Bool :=
  match cqwq_get_wqe cq i with
  | none => false
  | some cqe => cqe.op_own &&& MLX5_CQE_OWNER_MASK == (i / cq.entries.length) % 2

/-- Modelled from the spec: `mlx5e_get_cqe` (en.h is missing) returns the record
at `ci` iff it is valid, otherwise none.  A record that is returned is consumed:
`ci` advances by one, so that the next call fetches the next record and the
consumer doorbell advances by the number of records polled. -/
def mlx5e_get_cqe (cq : Cqwq) : Option (Cqe × Cqwq) :=
  match cqwq_get_wqe cq cq.ci with
  | none => none
  | some cqe =>
    if cqe_valid cq cq.ci then some (cqe, { cq with ci := cq.ci + 1 }) else none

/-- Modelled from the spec: `mlx5_cqwq_update_db_record` (wq.h is missing)
publishes `ci` to the doorbell cell. -/
def mlx5_cqwq_update_db_record (cq : Cqwq) : Cqwq :=
  { cq with db := cq.ci }

/-- Modelled from the spec: `cqe_has_vlan` (device.h is missing) tests the
VLAN-present indicator of the record. -/
def cqe_has_vlan (cqe : Cqe) : Bool := cqe.has_vlan

/-! ## The receive path -/

/-- The function `mlx5e_alloc_rx_wqe`: `wqe_ix` is the index of the descriptor
`wqe` points to, `ix` the slot.  Returns the C return value and the new state. -/
def mlx5e_alloc_rx_wqe (env : Env) (rq : Rq) (wqe_ix : Nat) (ix : Nat) :
    Option (Int × Rq) :=
  match env.m_get2 rq.nalloc rq.wqe_sz with
  | none =>
    some (-ENOMEM, { rq with
      nalloc := rq.nalloc + 1,
      trace := rq.trace ++ [Event.mGet rq.wqe_sz none] })
  | some mb0 =>
    let mb := env.m_adj mb0 MLX5E_NET_IP_ALIGN
    let dma_addr := env.dma_map_single rq.nmap
      (mb.m_data - MLX5E_NET_IP_ALIGN) (mb.m_len + MLX5E_NET_IP_ALIGN)
    let rq1 : Rq := { rq with
      nalloc := rq.nalloc + 1,
      nmap := rq.nmap + 1,
      trace := rq.trace ++ [Event.mGet rq.wqe_sz (some mb0),
        Event.dmaMap (mb.m_data - MLX5E_NET_IP_ALIGN) (mb.m_len + MLX5E_NET_IP_ALIGN)
          DmaDir.DMA_FROM_DEVICE dma_addr] }
    if env.dma_mapping_error dma_addr then
      some (-ENOMEM, { rq1 with trace := rq1.trace ++ [Event.mFree mb] })
    else
      let mb1 : Mbuf := { mb with dma_addr := dma_addr }
      match rq1.wq.wqes[wqe_ix]? with
      | none => none
      | some wqe =>
        let wqe1 : RxWqe := { wqe with
          addr := cpu_to_be64 env ((dma_addr + MLX5E_NET_IP_ALIGN) % 2 ^ 64) }
        if ix < rq1.mbuf.length then
          some (0, { rq1 with
            wq := { rq1.wq with wqes := rq1.wq.wqes.set wqe_ix wqe1 },
            mbuf := rq1.mbuf.set ix (some mb1),
            trace := rq1.trace ++ [Event.wqeWrite wqe_ix] })
        else none

/-- The `while` loop of `mlx5e_post_rx_wqes`.  The first argument bounds the
number of loop tests; running out of it yields `none`. -/
def mlx5e_post_rx_wqes_loop (env : Env) : Nat → Rq → Option Rq
  | 0, _ => none
  | fuel + 1, rq =>
    if mlx5_wq_ll_is_full rq.wq then some rq
    else
      match mlx5e_alloc_rx_wqe env rq rq.wq.head rq.wq.head with
      | none => none
      | some (ret, rq1) =>
        if ret ≠ 0 then some rq1
        else
          match rq1.wq.wqes[rq1.wq.head]? with
          | none => none
          | some wqe =>
            mlx5e_post_rx_wqes_loop env fuel { rq1 with
              wq := mlx5_wq_ll_push rq1.wq (be16_to_cpu env wqe.next_wqe_index),
              trace := rq1.trace ++ [Event.wqPush rq1.wq.head] }

/-- The function `mlx5e_post_rx_wqes`. -/
def mlx5e_post_rx_wqes (env : Env) (rq : Rq) : Option Rq :=
  if rq.enabled = 0 then some rq
  else
    match mlx5e_post_rx_wqes_loop env (rq.wq.free_cnt + 1) rq with
    | none => none
    | some rq1 =>
      some { rq1 with
        wq := mlx5_wq_ll_update_db_record rq1.wq,
        trace := rq1.trace ++ [Event.wmb, Event.wqDoorbell rq1.wq.head] }

/-- The function `mlx5e_build_rx_mbuf`. -/
def mlx5e_build_rx_mbuf (env : Env) (cqe : Cqe) (rq : Rq) (mb : Mbuf) : Mbuf × Rq :=
  let netdev := rq.netdev
  let cqe_bcnt := be32_to_cpu env cqe.byte_cnt
  let mb1 : Mbuf := { mb with
    pkthdr_len := cqe_bcnt, m_len := cqe_bcnt, flowid := rq.ix,
    hashtype := M_HASHTYPE_OPAQUE, rcvif := some netdev }
  let r : Mbuf × Rq :=
    if netdev.if_capabilities &&& IFCAP_RXCSUM ≠ 0 ∧
        cqe.hds_ip_ext &&& (CQE_L2_OK ||| CQE_L3_OK ||| CQE_L4_OK) =
          (CQE_L2_OK ||| CQE_L3_OK ||| CQE_L4_OK) then
      ({ mb1 with
          csum_flags := CSUM_IP_CHECKED ||| CSUM_IP_VALID ||| CSUM_DATA_VALID ||| CSUM_PSEUDO_HDR,
          csum_data := htons env 0xffff }, rq)
    else
      (mb1, { rq with stats := { rq.stats with csum_none := rq.stats.csum_none + 1 } })
  if cqe_has_vlan cqe then
    ({ r.1 with ether_vtag := be16_to_cpu env cqe.vlan_info,
                m_flags := r.1.m_flags ||| M_VLANTAG }, r.2)
  else r

/-- The ingress disposition at the end of the loop body of `mlx5e_poll_rx_cq`:
the condition is evaluated left to right, so `tcp_lro_rx` is called only when
the three tests before it are false. -/
def rx_input (env : Env) (rq : Rq) (mb : Mbuf) : Rq :=
  if mb.csum_flags = 0 ∨ rq.netdev.if_capenable &&& IFCAP_LRO = 0 ∨ rq.lro.lro_cnt = 0 then
    { rq with trace := rq.trace ++ [Event.ifInput mb] }
  else
    let r := env.tcp_lro_rx rq.lro mb
    let rq1 : Rq := { rq with lro := r.2, trace := rq.trace ++ [Event.lroRx mb r.1] }
    if r.1 ≠ 0 then { rq1 with trace := rq1.trace ++ [Event.ifInput mb] } else rq1

/-- The body of the `for` loop of `mlx5e_poll_rx_cq` after a record `cqe` has
been fetched. -/
def mlx5e_poll_rx_cq_iter (env : Env) (rq : Rq) (cqe : Cqe) : Option Rq :=
  let wqe_counter_be := cqe.wqe_counter
  let wqe_counter := be16_to_cpu env wqe_counter_be
  match rq.mbuf[wqe_counter]? with
  | none => none
  | some none => none
  | some (some mb) =>
    let rq1 : Rq := { rq with
      mbuf := rq.mbuf.set wqe_counter none,
      trace := rq.trace ++ [Event.dmaUnmap mb.dma_addr (mb.m_len + MLX5E_NET_IP_ALIGN)
        DmaDir.DMA_FROM_DEVICE] }
    let rq2 : Rq :=
      if cqe.op_own >>> 4 ≠ MLX5_CQE_RESP_SEND then
        { rq1 with
          stats := { rq1.stats with wqe_err := rq1.stats.wqe_err + 1 },
          trace := rq1.trace ++ [Event.mFree mb] }
      else
        let r := mlx5e_build_rx_mbuf env cqe rq1 mb
        let rq3 : Rq := { r.2 with stats := { r.2.stats with packets := r.2.stats.packets + 1 } }
        rx_input env rq3 r.1
    match mlx5_wq_ll_pop env rq2.wq wqe_counter_be wqe_counter with
    | none => none
    | some wq => some { rq2 with wq := wq, trace := rq2.trace ++ [Event.wqPop wqe_counter] }

/-- The `for` loop of `mlx5e_poll_rx_cq`, by the number of iterations left. -/
def mlx5e_poll_rx_cq_loop (env : Env) : Nat → Rq → Option Rq
  | 0, rq => some rq
  | n + 1, rq =>
    match mlx5e_get_cqe rq.cq with
    | none => some rq
    | some (cqe, cq) =>
      match mlx5e_poll_rx_cq_iter env
          { rq with cq := cq, trace := rq.trace ++ [Event.cqPop rq.cq.ci] } cqe with
      | none => none
      | some rq1 => mlx5e_poll_rx_cq_loop env n rq1

/-- The function `mlx5e_poll_rx_cq`.  After the loop: the consumer doorbell,
the fence, and the flush of every entry on `lro_active`.  `tcp_lro_flush` is
kernel code; each call is recorded as an event, and the list is empty when the
`while` loop ends. -/
def mlx5e_poll_rx_cq (env : Env) (rq : Rq) (budget : Int) : Option Rq :=
  match mlx5e_poll_rx_cq_loop env budget.toNat rq with
  | none => none
  | some rq1 =>
    some { rq1 with
      cq := mlx5_cqwq_update_db_record rq1.cq,
      lro := { rq1.lro with lro_active := [] },
      trace := rq1.trace ++ [Event.cqDoorbell rq1.cq.ci, Event.wmb]
        ++ rq1.lro.lro_active.map Event.lroFlush }

/-! ## Specification vocabulary -/

/-- The slot table entry `rq->mbuf[i]`, when it holds a packet. -/
def slot_mbuf (rq : Rq) (i : Nat) : Option Mbuf :=
  match rq.mbuf[i]? with
  | some (some mb) => some mb
  | _ => none

/-- The slot that follows slot `h` on the free list: the `next` link of
descriptor `h`, converted to host order. -/
def wqe_next (env : Env) (wqes : List RxWqe) (h : Nat) : Nat :=
  match wqes[h]? with
  | some wqe => be16_to_cpu env wqe.next_wqe_index
  | none => 0

/-- The first `n` slots of the chain that starts at slot `h`. -/
def free_chain (env : Env) (wqes : List RxWqe) : Nat → Nat → List Nat
  | 0, _ => []
  | n + 1, h => h :: free_chain env wqes n (wqe_next env wqes h)

/-- The free list of the work queue: `free_cnt` slots starting at `head`. -/
def free_list (env : Env) (rq : Rq) : List Nat :=
  free_chain env rq.wq.wqes rq.wq.free_cnt rq.wq.head

/-- Descriptor `i` is posted to the device: it exists and is not on the free
list. -/
def posted (env : Env) (rq : Rq) (i : Nat) : Prop :=
  i < rq.wq.wqes.length ∧ i ∉ free_list env rq

/-- Well-formed work queue: slot table and descriptor array have the same size,
slot numbers fit 16 bits, and the free list names distinct existing slots. -/
def WqWf (env : Env) (rq : Rq) : Prop :=
  rq.mbuf.length = rq.wq.wqes.length ∧ rq.wq.wqes.length ≤ 65536 ∧
  (free_list env rq).Nodup ∧ ∀ i ∈ free_list env rq, i < rq.wq.wqes.length

/-- The slot-table invariant: on a well-formed queue, slot `i` holds a packet
if and only if descriptor `i` is posted. -/
def SlotInv (env : Env) (rq : Rq) : Prop :=
  WqWf env rq ∧ ∀ i < rq.mbuf.length, (slot_mbuf rq i).isSome ↔ posted env rq i

instance (env : Env) (rq : Rq) (i : Nat) : Decidable (posted env rq i) := by
  unfold posted; infer_instance

instance (env : Env) (rq : Rq) : Decidable (WqWf env rq) := by
  unfold WqWf; infer_instance

instance (env : Env) (rq : Rq) : Decidable (SlotInv env rq) := by
  unfold SlotInv; infer_instance

/-- The slot named by the completion record at index `i` of the queue. -/
def cq_slot (env : Env) (cq : Cqwq) (i : Nat) : Option Nat :=
  (cqwq_get_wqe cq i).map fun cqe => be16_to_cpu env cqe.wqe_counter

/-- The completion queue holds exactly `a` valid completions: the records at
`ci`, ..., `ci + a - 1` are valid and the one at `ci + a` is not. -/
def CqHolds (cq : Cqwq) (a : Nat) : Prop :=
  (∀ j < a, cqe_valid cq (cq.ci + j) = true) ∧ cqe_valid cq (cq.ci + a) = false

/-- The next `m` completions name posted slots: each names a slot that holds a
packet, and no two name the same slot. -/
def CompletionsPosted (env : Env) (rq : Rq) (m : Nat) : Prop :=
  (∀ j < m, ((cq_slot env rq.cq (rq.cq.ci + j)).bind (slot_mbuf rq)).isSome) ∧
  ∀ k < m, ∀ j < k, cq_slot env rq.cq (rq.cq.ci + j) ≠ cq_slot env rq.cq (rq.cq.ci + k)

instance (cq : Cqwq) (a : Nat) : Decidable (CqHolds cq a) := by
  unfold CqHolds; infer_instance

instance (env : Env) (rq : Rq) (m : Nat) : Decidable (CompletionsPosted env rq m) := by
  unfold CompletionsPosted; infer_instance

/-- The events a call appended to the trace: the trace of the state after the
call, `rq1`, without the trace of the state before it, `rq`. -/
def new_events (rq rq1 : Rq) : List Event := rq1.trace.drop rq.trace.length

/-- The `j`-th next call of `mlx5e_alloc_rx_wqe` from state `rq` succeeds: the
pool hands out a packet and its DMA mapping does not fail. -/
def alloc_ok (env : Env) (rq : Rq) (j : Nat) : Bool :=
  match env.m_get2 (rq.nalloc + j) rq.wqe_sz with
  | none => false
  | some mb0 =>
    !env.dma_mapping_error (env.dma_map_single (rq.nmap + j)
      ((env.m_adj mb0 MLX5E_NET_IP_ALIGN).m_data - MLX5E_NET_IP_ALIGN)
      ((env.m_adj mb0 MLX5E_NET_IP_ALIGN).m_len + MLX5E_NET_IP_ALIGN))

/-- The number of calls of `mlx5e_alloc_rx_wqe` that succeed in a row, starting
with the `j`-th next call and looking at `n` calls at most. -/
def alloc_run_from (env : Env) (rq : Rq) : Nat → Nat → Nat
  | 0, _ => 0
  | n + 1, j => if alloc_ok env rq j then 1 + alloc_run_from env rq n (j + 1) else 0

/-- The number of calls of `mlx5e_alloc_rx_wqe` that succeed before the first
failure of either kind (pool or DMA mapping), among the next `n` calls. -/
def alloc_run (env : Env) (rq : Rq) (n : Nat) : Nat := alloc_run_from env rq n 0

/-- The state after one successful turn of the loop of `mlx5e_post_rx_wqes`:
the pool handed out `mb0`, the mapping succeeded, descriptor `wqe` at `head`
received the bus address, the packet went into slot `head`, and the slot was
pushed. -/
def post_step (env : Env) (rq : Rq) (mb0 : Mbuf) (wqe : RxWqe) : Rq :=
  let mb := env.m_adj mb0 MLX5E_NET_IP_ALIGN
  let dma_addr := env.dma_map_single rq.nmap
    (mb.m_data - MLX5E_NET_IP_ALIGN) (mb.m_len + MLX5E_NET_IP_ALIGN)
  { rq with
    wq := { rq.wq with
      wqes := rq.wq.wqes.set rq.wq.head
        { wqe with addr := cpu_to_be64 env ((dma_addr + MLX5E_NET_IP_ALIGN) % 2 ^ 64) },
      head := be16_to_cpu env wqe.next_wqe_index,
      wqe_ctr := rq.wq.wqe_ctr + 1,
      free_cnt := rq.wq.free_cnt - 1 },
    mbuf := rq.mbuf.set rq.wq.head (some { mb with dma_addr := dma_addr }),
    nalloc := rq.nalloc + 1,
    nmap := rq.nmap + 1,
    trace := rq.trace ++ [Event.mGet rq.wqe_sz (some mb0),
      Event.dmaMap (mb.m_data - MLX5E_NET_IP_ALIGN) (mb.m_len + MLX5E_NET_IP_ALIGN)
        DmaDir.DMA_FROM_DEVICE dma_addr,
      Event.wqeWrite rq.wq.head,
      Event.wqPush rq.wq.head] }

/-- The events of a turn of the loop of `mlx5e_post_rx_wqes` that fails: the
pool is empty, or the mapping of the packet it handed out failed. -/
def post_fail_events (env : Env) (rq : Rq) : List Event :=
  match env.m_get2 rq.nalloc rq.wqe_sz with
  | none => [Event.mGet rq.wqe_sz none]
  | some mb0 =>
    let mb := env.m_adj mb0 MLX5E_NET_IP_ALIGN
    [Event.mGet rq.wqe_sz (some mb0),
     Event.dmaMap (mb.m_data - MLX5E_NET_IP_ALIGN) (mb.m_len + MLX5E_NET_IP_ALIGN)
       DmaDir.DMA_FROM_DEVICE
       (env.dma_map_single rq.nmap (mb.m_data - MLX5E_NET_IP_ALIGN)
         (mb.m_len + MLX5E_NET_IP_ALIGN)),
     Event.mFree mb]

/-- The state after a failing turn of the loop of `mlx5e_post_rx_wqes`. -/
def post_fail (env : Env) (rq : Rq) : Rq :=
  { rq with
    nalloc := rq.nalloc + 1,
    nmap := rq.nmap + (if (env.m_get2 rq.nalloc rq.wqe_sz).isSome then 1 else 0),
    trace := rq.trace ++ post_fail_events env rq }

/-- Events that hand a packet to the stack sink `if_input`. -/
def Event.isInput : Event → Bool
  | Event.ifInput _ => true
  | _ => false

/-- Events that offer a packet to LRO (`tcp_lro_rx`). -/
def Event.isLroRx : Event → Bool
  | Event.lroRx _ _ => true
  | _ => false

/-- Events that free a packet. -/
def Event.isFree : Event → Bool
  | Event.mFree _ => true
  | _ => false

/-- Successful buffer-pool calls. -/
def Event.isAlloc : Event → Bool
  | Event.mGet _ (some _) => true
  | _ => false

/-- Buffer-pool calls, successful or not. -/
def Event.isGet : Event → Bool
  | Event.mGet _ _ => true
  | _ => false

/-- Pushes of a descriptor to the device. -/
def Event.isPush : Event → Bool
  | Event.wqPush _ => true
  | _ => false

/-- Doorbell stores, of either doorbell. -/
def Event.isDoorbell : Event → Bool
  | Event.wqDoorbell _ => true
  | Event.cqDoorbell _ => true
  | _ => false

/-- Stores to the posted-buffer doorbell. -/
def Event.isWqDoorbell : Event → Bool
  | Event.wqDoorbell _ => true
  | _ => false

/-- Changes of descriptor or completion-queue state. -/
def Event.isStateChange : Event → Bool
  | Event.wqeWrite _ => true
  | Event.wqPush _ => true
  | Event.wqPop _ => true
  | Event.cqPop _ => true
  | _ => false

/-- The slot a `wqPop` event returns to the free list. -/
def Event.popSlot : Event → Option Nat
  | Event.wqPop ix => some ix
  | _ => none

/-- The consumer index a `cqPop` event consumes. -/
def Event.popCi : Event → Option Nat
  | Event.cqPop ci => some ci
  | _ => none

/-- The region `[start, end)` and direction of a DMA map call. -/
def Event.mapRegion : Event → Option (Int × Int × DmaDir)
  | Event.dmaMap start size dir _ => some (start, start + size, dir)
  | _ => none

/-- The doorbell discipline on a trace: `fenced` says that a fence has been
issued since the last state change; every doorbell store must find it true. -/
def doorbells_fenced : Bool → List Event → Bool
  | _, [] => true
  | fenced, e :: es =>
    if e = Event.wmb then doorbells_fenced true es
    else if e.isDoorbell then fenced && doorbells_fenced fenced es
    else if e.isStateChange then doorbells_fenced false es
    else doorbells_fenced fenced es

/-- Bus address and length of every successful DMA map in a trace. -/
def dma_maps (env : Env) (tr : List Event) : List (Nat × Nat) :=
  tr.filterMap fun e =>
    match e with
    | Event.dmaMap _ size _ addr =>
      if env.dma_mapping_error addr then none else some (addr, size)
    | _ => none

/-- Bus address and length of every DMA unmap in a trace. -/
def dma_unmaps (tr : List Event) : List (Nat × Nat) :=
  tr.filterMap fun e =>
    match e with
    | Event.dmaUnmap addr size _ => some (addr, size)
    | _ => none

/-- The mapping a packet in the slot table stands for: its stored bus address
and its length plus the pad. -/
def mbuf_mapping (mb : Mbuf) : Nat × Nat := (mb.dma_addr, mb.m_len + MLX5E_NET_IP_ALIGN)

/-- The mappings of the packets in the slot table. -/
def in_flight (slots : List (Option Mbuf)) : List (Nat × Nat) :=
  slots.filterMap fun o => o.map mbuf_mapping

/-- The DMA pairing invariant: the successful maps are, with multiplicity, the
unmaps together with the mappings of the packets still in the slot table. -/
def DmaInv (env : Env) (rq : Rq) : Prop :=
  List.Perm (dma_maps env rq.trace) (dma_unmaps rq.trace ++ in_flight rq.mbuf)

instance (env : Env) (rq : Rq) : Decidable (DmaInv env rq) := by
  unfold DmaInv; infer_instance

/-- One step of a service history: a post, a poll with a budget, or the device
writing completion records. -/
inductive Cycle where
  | post
  | poll (budget : Int)
  | device (entries : List Cqe)

/-- A sequence of post and poll cycles, with the device filling the completion
queue in between. -/
def run_cycles (env : Env) : List Cycle → Rq → Option Rq
  | [], rq => some rq
  | Cycle.post :: cs, rq =>
    match mlx5e_post_rx_wqes env rq with
    | none => none
    | some rq1 => run_cycles env cs rq1
  | Cycle.poll budget :: cs, rq =>
    match mlx5e_poll_rx_cq env rq budget with
    | none => none
    | some rq1 => run_cycles env cs rq1
  | Cycle.device entries :: cs, rq =>
    run_cycles env cs { rq with cq := { rq.cq with entries := entries } }

/-! ## Sample states -/

/-- A packet as the pool hands it out: metadata clear. -/
def mbuf_fresh (data : Int) (len : Nat) : Mbuf :=
  { m_data := data, m_len := len, m_flags := 0, pkthdr_len := 0, flowid := 0,
    hashtype := 0, rcvif := none, csum_flags := 0, csum_data := 0, ether_vtag := 0,
    dma_addr := 0 }

/-- The left trim of a single buffer, as `m_adj` does it. -/
def m_adj_sample (mb : Mbuf) (n : Nat) : Mbuf :=
  if mb.m_len ≤ n then { mb with m_len := 0 }
  else { mb with m_data := mb.m_data + n, m_len := mb.m_len - n }

/-- A little-endian host whose pool hands out `k` buffers and whose DMA layer
succeeds when `dma_ok` is set. -/
def env_sample (k : Nat) (dma_ok : Bool) : Env :=
  { littleEndian := true
    m_get2 := fun i size => if i < k then some { mbuf_fresh (4096 * (i + 1)) size with m_len := size } else none
    m_adj := m_adj_sample
    dma_map_single := fun i _ _ => if dma_ok then 65536 * (i + 1) else 0
    dma_mapping_error := fun a => a == 0
    tcp_lro_rx := fun lro _ => (0, lro) }

/-- The sample host with a pool of `k` buffers and a DMA layer whose map call
number `f` fails. -/
def env_map_fails_at (k f : Nat) : Env :=
  { env_sample k true with
    dma_map_single := fun i _ _ => if i = f then 0 else 65536 * (i + 1) }

/-- A completion record for slot `slot` (stored big-endian) with the given
`op_own` and `hds_ip_ext`. -/
def cqe_sample (slot : Nat) (op_own : Nat) (hds : Nat) : Cqe :=
  { byte_cnt := bswap 4 1500, wqe_counter := bswap 2 slot, op_own := op_own,
    hds_ip_ext := hds, vlan_info := 0, has_vlan := false }

/-- An enabled queue of four descriptors, all on the free list
`0 → 1 → 2 → 3`, with an empty completion queue of four records. -/
def rq_sample : Rq :=
  { wq := { head := 0, free_cnt := 4, wqe_ctr := 0, db := 0,
            wqes := [⟨bswap 2 1, 0⟩, ⟨bswap 2 2, 0⟩, ⟨bswap 2 3, 0⟩, ⟨bswap 2 0, 0⟩] }
    cq := { ci := 0, db := 0,
            entries := [cqe_sample 0 0xf1 0, cqe_sample 0 0xf1 0,
                        cqe_sample 0 0xf1 0, cqe_sample 0 0xf1 0] }
    mbuf := [none, none, none, none]
    wqe_sz := 2048
    enabled := 1
    ix := 0
    netdev := { if_capabilities := IFCAP_RXCSUM ||| IFCAP_LRO,
                if_capenable := IFCAP_RXCSUM ||| IFCAP_LRO }
    stats := { packets := 0, wqe_err := 0, csum_none := 0 }
    lro := { lro_cnt := 8, lro_active := [] }
    nalloc := 0
    nmap := 0
    trace := [] }

/-- The sample queue on an interface that supports RXCSUM (`if_capabilities`)
but has it switched off (`if_capenable`). -/
def rq_rxcsum_off : Rq :=
  { rq_sample with netdev := { if_capabilities := IFCAP_RXCSUM, if_capenable := 0 } }

/-- The packet the sample pool and DMA layer leave in slot `i`. -/
def mbuf_posted (i : Nat) : Mbuf :=
  { mbuf_fresh (4096 * (i + 1) + 2) 2046 with dma_addr := 65536 * (i + 1) }

/-- The sample queue with slots 0 and 1 posted and two completions pending: a
good receive for slot 0 and an error completion (`op_own = 0x30`) for slot 1. -/
def rq_pending : Rq :=
  { rq_sample with
    wq := { rq_sample.wq with head := 2, free_cnt := 2, wqe_ctr := 2 }
    cq := { rq_sample.cq with
            entries := [cqe_sample 0 0x20 7, cqe_sample 1 0x30 0,
                        cqe_sample 0 0xf1 0, cqe_sample 0 0xf1 0] }
    mbuf := [some (mbuf_posted 0), some (mbuf_posted 1), none, none]
    nalloc := 2
    nmap := 2
    trace := [Event.dmaMap 4096 2048 DmaDir.DMA_FROM_DEVICE 65536,
              Event.dmaMap 8192 2048 DmaDir.DMA_FROM_DEVICE 131072] }

/-! ## Frame lemmas for the loop body -/

theorem build_rx_mbuf_snd (env : Env) (cqe : Cqe) (rq : Rq) (mb : Mbuf) :
    (mlx5e_build_rx_mbuf env cqe rq mb).2 =
      { rq with stats := { rq.stats with
          csum_none := (mlx5e_build_rx_mbuf env cqe rq mb).2.stats.csum_none } } := by
  unfold mlx5e_build_rx_mbuf
  simp only
  split_ifs <;> rfl

theorem build_rx_mbuf_fst_congr (env : Env) (cqe : Cqe) (rq rq1 : Rq) (mb : Mbuf)
    (hn : rq1.netdev = rq.netdev) (hi : rq1.ix = rq.ix) :
    (mlx5e_build_rx_mbuf env cqe rq1 mb).1 = (mlx5e_build_rx_mbuf env cqe rq mb).1 := by
  unfold mlx5e_build_rx_mbuf
  simp only [hn, hi]
  split_ifs <;> rfl

/-- The events the ingress disposition appends for packet `mb`. -/
theorem rx_input_eq (env : Env) (rq : Rq) (mb : Mbuf) :
    rx_input env rq mb =
      { rq with
        lro := (rx_input env rq mb).lro,
        trace := rq.trace ++
          (if mb.csum_flags ≠ 0 ∧ rq.netdev.if_capenable &&& IFCAP_LRO ≠ 0 ∧ rq.lro.lro_cnt ≠ 0 then
            (if (env.tcp_lro_rx rq.lro mb).1 = 0 then [Event.lroRx mb (env.tcp_lro_rx rq.lro mb).1]
             else [Event.lroRx mb (env.tcp_lro_rx rq.lro mb).1, Event.ifInput mb])
           else [Event.ifInput mb]) } := by
  unfold rx_input
  by_cases h1 : mb.csum_flags = 0
  · simp [h1]
  · by_cases h2 : rq.netdev.if_capenable &&& IFCAP_LRO = 0
    · simp [h1, h2]
    · by_cases h3 : rq.lro.lro_cnt = 0
      · simp [h1, h2, h3]
      · by_cases h4 : (env.tcp_lro_rx rq.lro mb).1 = 0
        · simp [h1, h2, h3, h4]
        · simp [h1, h2, h3, h4]

/-- C2: for a RESP_SEND completion whose slot holds the packet `mb`, let `mb1` be
the packet after `mlx5e_build_rx_mbuf`.  The loop body of `mlx5e_poll_rx_cq`
returns, and among the events it appends there is one offer of `mb1` to LRO
(`tcp_lro_rx`) if `mb1.csum_flags` is non-zero, `if_capenable` has `IFCAP_LRO`
and `lro_cnt` is non-zero, and none otherwise; there is no delivery to `if_input`
if the packet was offered and `tcp_lro_rx` returned 0 (accepted), and one
delivery of `mb1` otherwise.  So each packet is either accepted by LRO or
delivered, exactly once and never both. -/
theorem poll_rx_cq_lro_or_input (env : Env) (rq : Rq) (cqe : Cqe) (mb : Mbuf) (wqe : RxWqe)
    (hop : cqe.op_own >>> 4 = MLX5_CQE_RESP_SEND)
    (hmb : rq.mbuf[be16_to_cpu env cqe.wqe_counter]? = some (some mb))
    (hwqe : rq.wq.wqes[be16_to_cpu env cqe.wqe_counter]? = some wqe) :
    ∃ rq1 evs, mlx5e_poll_rx_cq_iter env rq cqe = some rq1 ∧ rq1.trace = rq.trace ++ evs ∧
      (evs.countP Event.isLroRx =
        if (mlx5e_build_rx_mbuf env cqe rq mb).1.csum_flags ≠ 0 ∧
            rq.netdev.if_capenable &&& IFCAP_LRO ≠ 0 ∧ rq.lro.lro_cnt ≠ 0 then 1 else 0) ∧
      (evs.countP Event.isInput =
        if (mlx5e_build_rx_mbuf env cqe rq mb).1.csum_flags ≠ 0 ∧
            rq.netdev.if_capenable &&& IFCAP_LRO ≠ 0 ∧ rq.lro.lro_cnt ≠ 0 ∧
            (env.tcp_lro_rx rq.lro (mlx5e_build_rx_mbuf env cqe rq mb).1).1 = 0 then 0 else 1) ∧
      (∀ e ∈ evs, e.isLroRx = true → e = Event.lroRx (mlx5e_build_rx_mbuf env cqe rq mb).1
        (env.tcp_lro_rx rq.lro (mlx5e_build_rx_mbuf env cqe rq mb).1).1) ∧
      (∀ e ∈ evs, e.isInput = true → e = Event.ifInput (mlx5e_build_rx_mbuf env cqe rq mb).1) := by
  have hb := build_rx_mbuf_fst_congr env cqe rq
    { rq with
      mbuf := rq.mbuf.set (be16_to_cpu env cqe.wqe_counter) none,
      trace := rq.trace ++ [Event.dmaUnmap mb.dma_addr (mb.m_len + MLX5E_NET_IP_ALIGN)
        DmaDir.DMA_FROM_DEVICE] } mb rfl rfl
  simp only [mlx5e_poll_rx_cq_iter, hmb, hop, ne_eq, not_true_eq_false, if_false]
  rw [rx_input_eq, build_rx_mbuf_snd, hb]
  generalize (mlx5e_build_rx_mbuf env cqe rq mb).1 = mb1
  simp only [mlx5_wq_ll_pop, hwqe]
  by_cases h1 : mb1.csum_flags = 0
  · simp [h1, Event.isLroRx, Event.isInput, List.countP_cons]
  · by_cases h2 : rq.netdev.if_capenable &&& IFCAP_LRO = 0
    · simp [h1, h2, Event.isLroRx, Event.isInput, List.countP_cons]
    · by_cases h3 : rq.lro.lro_cnt = 0
      · simp [h1, h2, h3, Event.isLroRx, Event.isInput, List.countP_cons]
      · by_cases h4 : (env.tcp_lro_rx rq.lro mb1).1 = 0
        · simp [h1, h2, h3, h4, Event.isLroRx, Event.isInput, List.countP_cons]
        · simp [h1, h2, h3, h4, Event.isLroRx, Event.isInput, List.countP_cons]

theorem new_events_eq (rq rq1 : Rq) (evs : List Event) (h : rq1.trace = rq.trace ++ evs) :
    new_events rq rq1 = evs := by
  simp [new_events, h]

theorem htons_ffff (env : Env) : htons env 0xffff = 0xffff := by
  unfold htons cpu_be
  split_ifs
  · simp [bswap]
  · norm_num

/-- What `mlx5e_build_rx_mbuf` does with the checksum fields of a packet whose
checksum flags are clear: the test is on `if_capabilities`. -/
theorem build_rx_mbuf_csum (env : Env) (cqe : Cqe) (rq : Rq) (mb : Mbuf)
    (hfresh : mb.csum_flags = 0) :
    (rq.netdev.if_capabilities &&& IFCAP_RXCSUM ≠ 0 ∧
      cqe.hds_ip_ext &&& (CQE_L2_OK ||| CQE_L3_OK ||| CQE_L4_OK) =
        (CQE_L2_OK ||| CQE_L3_OK ||| CQE_L4_OK) →
      (mlx5e_build_rx_mbuf env cqe rq mb).1.csum_flags =
          CSUM_IP_CHECKED ||| CSUM_IP_VALID ||| CSUM_DATA_VALID ||| CSUM_PSEUDO_HDR ∧
        (mlx5e_build_rx_mbuf env cqe rq mb).1.csum_data = 0xffff ∧
        (mlx5e_build_rx_mbuf env cqe rq mb).2.stats.csum_none = rq.stats.csum_none) ∧
    (¬ (rq.netdev.if_capabilities &&& IFCAP_RXCSUM ≠ 0 ∧
      cqe.hds_ip_ext &&& (CQE_L2_OK ||| CQE_L3_OK ||| CQE_L4_OK) =
        (CQE_L2_OK ||| CQE_L3_OK ||| CQE_L4_OK)) →
      (mlx5e_build_rx_mbuf env cqe rq mb).1.csum_flags = 0 ∧
        (mlx5e_build_rx_mbuf env cqe rq mb).2.stats.csum_none = rq.stats.csum_none + 1) := by
  unfold mlx5e_build_rx_mbuf
  constructor
  · intro h
    simp only [h, ne_eq, not_false_eq_true, and_self, if_true]
    split_ifs <;> simp [htons_ffff]
  · intro h
    simp only [h, if_false]
    split_ifs <;> simp [hfresh]

/-- C3: `mlx5e_build_rx_mbuf` tests `if_capabilities`, not `if_capenable`.  On an
interface that supports RXCSUM but has it switched off, a completion with
L2_OK, L3_OK and L4_OK set and a packet with clear checksum flags, the code
marks the checksum as validated (`csum_data = 0xffff`) and leaves `csum_none`
alone, where the claim has the flags left clear and `csum_none` incremented. -/
theorem build_rx_mbuf_rxcsum_disabled :
    rq_rxcsum_off.netdev.if_capenable &&& IFCAP_RXCSUM = 0 ∧
    (mbuf_fresh 4098 2046).csum_flags = 0 ∧
    (cqe_sample 0 0x20 7).hds_ip_ext &&& (CQE_L2_OK ||| CQE_L3_OK ||| CQE_L4_OK) =
      (CQE_L2_OK ||| CQE_L3_OK ||| CQE_L4_OK) ∧
    (mlx5e_build_rx_mbuf (env_sample 2 true) (cqe_sample 0 0x20 7) rq_rxcsum_off
      (mbuf_fresh 4098 2046)).1.csum_flags =
        CSUM_IP_CHECKED ||| CSUM_IP_VALID ||| CSUM_DATA_VALID ||| CSUM_PSEUDO_HDR ∧
    (mlx5e_build_rx_mbuf (env_sample 2 true) (cqe_sample 0 0x20 7) rq_rxcsum_off
      (mbuf_fresh 4098 2046)).1.csum_data = 0xffff ∧
    (mlx5e_build_rx_mbuf (env_sample 2 true) (cqe_sample 0 0x20 7) rq_rxcsum_off
      (mbuf_fresh 4098 2046)).2.stats.csum_none = rq_rxcsum_off.stats.csum_none := by
  decide

/-- The three ways `mlx5e_alloc_rx_wqe` returns. -/
theorem alloc_rx_wqe_cases (env : Env) (rq rq1 : Rq) (wqe_ix ix : Nat) (ret : Int)
    (h : mlx5e_alloc_rx_wqe env rq wqe_ix ix = some (ret, rq1)) :
    (env.m_get2 rq.nalloc rq.wqe_sz = none ∧ ret = -ENOMEM ∧
      rq1 = { rq with nalloc := rq.nalloc + 1,
                      trace := rq.trace ++ [Event.mGet rq.wqe_sz none] }) ∨
    (∃ mb0, env.m_get2 rq.nalloc rq.wqe_sz = some mb0 ∧ alloc_ok env rq 0 = false ∧
      ret = -ENOMEM ∧
      rq1 = { rq with
        nalloc := rq.nalloc + 1, nmap := rq.nmap + 1,
        trace := rq.trace ++ [Event.mGet rq.wqe_sz (some mb0),
          Event.dmaMap ((env.m_adj mb0 MLX5E_NET_IP_ALIGN).m_data - MLX5E_NET_IP_ALIGN)
            ((env.m_adj mb0 MLX5E_NET_IP_ALIGN).m_len + MLX5E_NET_IP_ALIGN)
            DmaDir.DMA_FROM_DEVICE
            (env.dma_map_single rq.nmap
              ((env.m_adj mb0 MLX5E_NET_IP_ALIGN).m_data - MLX5E_NET_IP_ALIGN)
              ((env.m_adj mb0 MLX5E_NET_IP_ALIGN).m_len + MLX5E_NET_IP_ALIGN)),
          Event.mFree (env.m_adj mb0 MLX5E_NET_IP_ALIGN)] }) ∨
    (∃ mb0 wqe, env.m_get2 rq.nalloc rq.wqe_sz = some mb0 ∧ alloc_ok env rq 0 = true ∧
      rq.wq.wqes[wqe_ix]? = some wqe ∧ ix < rq.mbuf.length ∧ ret = 0 ∧
      rq1 = { rq with
        wq := { rq.wq with wqes := rq.wq.wqes.set wqe_ix { wqe with
          addr := cpu_to_be64 env ((env.dma_map_single rq.nmap
              ((env.m_adj mb0 MLX5E_NET_IP_ALIGN).m_data - MLX5E_NET_IP_ALIGN)
              ((env.m_adj mb0 MLX5E_NET_IP_ALIGN).m_len + MLX5E_NET_IP_ALIGN)
            + MLX5E_NET_IP_ALIGN) % 2 ^ 64) } },
        mbuf := rq.mbuf.set ix (some { env.m_adj mb0 MLX5E_NET_IP_ALIGN with
          dma_addr := env.dma_map_single rq.nmap
              ((env.m_adj mb0 MLX5E_NET_IP_ALIGN).m_data - MLX5E_NET_IP_ALIGN)
              ((env.m_adj mb0 MLX5E_NET_IP_ALIGN).m_len + MLX5E_NET_IP_ALIGN) }),
        nalloc := rq.nalloc + 1, nmap := rq.nmap + 1,
        trace := rq.trace ++ [Event.mGet rq.wqe_sz (some mb0),
          Event.dmaMap ((env.m_adj mb0 MLX5E_NET_IP_ALIGN).m_data - MLX5E_NET_IP_ALIGN)
            ((env.m_adj mb0 MLX5E_NET_IP_ALIGN).m_len + MLX5E_NET_IP_ALIGN)
            DmaDir.DMA_FROM_DEVICE
            (env.dma_map_single rq.nmap
              ((env.m_adj mb0 MLX5E_NET_IP_ALIGN).m_data - MLX5E_NET_IP_ALIGN)
              ((env.m_adj mb0 MLX5E_NET_IP_ALIGN).m_len + MLX5E_NET_IP_ALIGN)),
          Event.wqeWrite wqe_ix] }) := by
  unfold mlx5e_alloc_rx_wqe at h
  cases hg : env.m_get2 rq.nalloc rq.wqe_sz with
  | none =>
    left
    simp only [hg, Option.some.injEq, Prod.mk.injEq] at h
    exact ⟨rfl, h.1.symm, h.2.symm⟩
  | some mb0 =>
    right
    simp only [hg] at h
    by_cases h1 : env.dma_mapping_error (env.dma_map_single rq.nmap
              ((env.m_adj mb0 MLX5E_NET_IP_ALIGN).m_data - MLX5E_NET_IP_ALIGN)
              ((env.m_adj mb0 MLX5E_NET_IP_ALIGN).m_len + MLX5E_NET_IP_ALIGN)) = true
    · left
      simp only [h1, if_true, Option.some.injEq, Prod.mk.injEq] at h
      refine ⟨mb0, rfl, ?_, h.1.symm, ?_⟩
      · simp [alloc_ok, hg, h1]
      · rw [← h.2]; simp
    · right
      simp only [h1, Bool.false_eq_true, if_false] at h
      cases hw : rq.wq.wqes[wqe_ix]? with
      | none => simp [hw] at h
      | some wqe =>
        simp only [hw] at h
        by_cases h2 : ix < rq.mbuf.length
        · simp only [h2, if_true, Option.some.injEq, Prod.mk.injEq] at h
          refine ⟨mb0, wqe, rfl, ?_, rfl, h2, h.1.symm, ?_⟩
          · simp [alloc_ok, hg, h1]
          · rw [← h.2]; simp
        · simp [h2] at h

/-- Counterexample for C10: on the sample queue the trimmed packet has
`data = 4098` and `len = 2046`; the call succeeds and the one region handed to
the DMA map is `[4096, 6144)`, which is not
`[data - NET_IP_ALIGN, data + len + NET_IP_ALIGN) = [4096, 6146)`. -/
theorem alloc_rx_wqe_region_counterexample :
    ∃ rq1, mlx5e_alloc_rx_wqe (env_sample 2 true) rq_sample 0 0 = some (0, rq1) ∧
      (env_sample 2 true).m_get2 rq_sample.nalloc rq_sample.wqe_sz =
        some (mbuf_fresh 4096 2048) ∧
      (env_sample 2 true).m_adj (mbuf_fresh 4096 2048) MLX5E_NET_IP_ALIGN = mbuf_fresh 4098 2046 ∧
      (new_events rq_sample rq1).filterMap Event.mapRegion =
        [(4096, 6144, DmaDir.DMA_FROM_DEVICE)] ∧
      (new_events rq_sample rq1).filterMap Event.mapRegion ≠
        [(4098 - MLX5E_NET_IP_ALIGN, 4098 + 2046 + MLX5E_NET_IP_ALIGN, DmaDir.DMA_FROM_DEVICE)] := by
  refine ⟨_, rfl, ?_, ?_, ?_, ?_⟩ <;> decide

/-- C10, as amended: on every successful `mlx5e_alloc_rx_wqe` (return value 0),
with `data` and `len` the data pointer and length of the packet after `m_adj`,
exactly one region is handed to the DMA map; it starts at `data - NET_IP_ALIGN`,
has length `len + NET_IP_ALIGN`, that is, it is `[data - NET_IP_ALIGN, data + len)`,
and it is mapped `DMA_FROM_DEVICE`. -/
theorem alloc_rx_wqe_map_region (env : Env) (rq rq1 : Rq) (wqe_ix ix : Nat)
    (h : mlx5e_alloc_rx_wqe env rq wqe_ix ix = some (0, rq1)) :
    ∃ mb0, env.m_get2 rq.nalloc rq.wqe_sz = some mb0 ∧
      (new_events rq rq1).filterMap Event.mapRegion =
        [((env.m_adj mb0 MLX5E_NET_IP_ALIGN).m_data - MLX5E_NET_IP_ALIGN,
          (env.m_adj mb0 MLX5E_NET_IP_ALIGN).m_data + (env.m_adj mb0 MLX5E_NET_IP_ALIGN).m_len,
          DmaDir.DMA_FROM_DEVICE)] := by
  rcases alloc_rx_wqe_cases env rq rq1 wqe_ix ix 0 h with h1 | ⟨mb0, _, _, h1, _⟩ |
    ⟨mb0, wqe, hg, _, _, _, _, h1⟩
  · simp [ENOMEM] at h1
  · simp [ENOMEM] at h1
  · refine ⟨mb0, hg, ?_⟩
    subst h1
    simp [new_events, Event.mapRegion, MLX5E_NET_IP_ALIGN]

/-- Witness for C10: the first allocation on the sample queue. -/
theorem alloc_rx_wqe_map_region_witness :
    ∃ rq1, mlx5e_alloc_rx_wqe (env_sample 2 true) rq_sample 0 0 = some (0, rq1) ∧
      ∃ mb0, (env_sample 2 true).m_get2 rq_sample.nalloc rq_sample.wqe_sz = some mb0 ∧
        (new_events rq_sample rq1).filterMap Event.mapRegion =
          [(((env_sample 2 true).m_adj mb0 MLX5E_NET_IP_ALIGN).m_data - MLX5E_NET_IP_ALIGN,
            ((env_sample 2 true).m_adj mb0 MLX5E_NET_IP_ALIGN).m_data +
              ((env_sample 2 true).m_adj mb0 MLX5E_NET_IP_ALIGN).m_len,
            DmaDir.DMA_FROM_DEVICE)] :=
  ⟨_, rfl, alloc_rx_wqe_map_region (env_sample 2 true) rq_sample _ 0 0 rfl⟩

/-! ## Byte order -/

theorem be16_roundtrip (env : Env) (x : Nat) (hx : x < 65536) :
    be16_to_cpu env (cpu_to_be16 env x) = x := by
  unfold be16_to_cpu cpu_to_be16 cpu_be
  split_ifs
  · simp only [bswap, pow_one, pow_zero, mul_one, add_zero]
    have h1 : x / 256 % 256 = x / 256 := Nat.mod_eq_of_lt (by omega)
    have h2 : (x % 256 * 256 + x / 256) / 256 = x % 256 := by omega
    have h3 : (x % 256 * 256 + x / 256) % 256 = x / 256 := by omega
    rw [h1, h2, h3, Nat.mod_mod]
    omega
  · norm_num; omega

/-! ## The free list -/

theorem free_chain_congr (env : Env) (wqes wqes1 : List RxWqe) (n h : Nat)
    (hnext : ∀ i ∈ free_chain env wqes n h, wqe_next env wqes1 i = wqe_next env wqes i) :
    free_chain env wqes1 n h = free_chain env wqes n h := by
  induction n generalizing h with
  | zero => rfl
  | succ n ih =>
    simp only [free_chain] at hnext ⊢
    rw [hnext h (List.mem_cons_self _ _)]
    rw [ih _ (fun i hi => hnext i (List.mem_cons_of_mem _ hi))]

theorem wqe_next_set_addr (env : Env) (wqes : List RxWqe) (ix : Nat) (wqe : RxWqe) (a : Nat)
    (hw : wqes[ix]? = some wqe) (i : Nat) :
    wqe_next env (wqes.set ix { wqe with addr := a }) i = wqe_next env wqes i := by
  unfold wqe_next
  by_cases h : ix = i
  · subst h
    have : ix < wqes.length := by
      rcases List.getElem?_eq_some.1 hw with ⟨h1, _⟩
      exact h1
    simp [List.getElem?_set_self, this, hw]
  · simp [List.getElem?_set_ne h]

theorem wqe_next_set_ne (env : Env) (wqes : List RxWqe) (ix : Nat) (wqe : RxWqe) (i : Nat)
    (h : ix ≠ i) :
    wqe_next env (wqes.set ix wqe) i = wqe_next env wqes i := by
  unfold wqe_next
  simp [List.getElem?_set_ne h]

theorem free_list_head (env : Env) (rq : Rq) (h : rq.wq.free_cnt ≠ 0) :
    free_list env rq = rq.wq.head ::
      free_chain env rq.wq.wqes (rq.wq.free_cnt - 1) (wqe_next env rq.wq.wqes rq.wq.head) := by
  unfold free_list
  obtain ⟨k, hk⟩ := Nat.exists_eq_succ_of_ne_zero h
  rw [hk]
  simp [free_chain]

/-! ## One turn of the loop of `mlx5e_post_rx_wqes` -/

theorem post_loop_full (env : Env) (fuel : Nat) (rq : Rq) (h : rq.wq.free_cnt = 0) :
    mlx5e_post_rx_wqes_loop env (fuel + 1) rq = some rq := by
  simp [mlx5e_post_rx_wqes_loop, mlx5_wq_ll_is_full, h]

theorem alloc_rx_wqe_fail (env : Env) (rq : Rq) (wqe_ix ix : Nat)
    (hok : alloc_ok env rq 0 = false) :
    mlx5e_alloc_rx_wqe env rq wqe_ix ix = some (-ENOMEM, post_fail env rq) := by
  unfold alloc_ok at hok
  unfold mlx5e_alloc_rx_wqe post_fail post_fail_events
  cases hg : env.m_get2 rq.nalloc rq.wqe_sz with
  | none => simp
  | some mb0 =>
    simp only [Nat.add_zero, hg, Bool.not_eq_false'] at hok
    simp [hok]

theorem head_lt_of_wf (env : Env) (rq : Rq) (hwf : WqWf env rq) (hfree : rq.wq.free_cnt ≠ 0) :
    rq.wq.head < rq.wq.wqes.length ∧ rq.wq.head < rq.mbuf.length := by
  obtain ⟨hlen, _, _, hlt⟩ := hwf
  have hmem : rq.wq.head ∈ free_list env rq := by
    rw [free_list_head env rq hfree]; exact List.mem_cons_self _ _
  have := hlt _ hmem
  omega

theorem post_loop_fail (env : Env) (fuel : Nat) (rq : Rq)
    (hfree : rq.wq.free_cnt ≠ 0) (hok : alloc_ok env rq 0 = false) :
    mlx5e_post_rx_wqes_loop env (fuel + 1) rq = some (post_fail env rq) := by
  simp [mlx5e_post_rx_wqes_loop, mlx5_wq_ll_is_full, hfree, alloc_rx_wqe_fail env rq _ _ hok,
    ENOMEM]

theorem post_loop_ok (env : Env) (fuel : Nat) (rq : Rq) (hwf : WqWf env rq)
    (hfree : rq.wq.free_cnt ≠ 0) (hok : alloc_ok env rq 0 = true) :
    ∃ mb0 wqe, env.m_get2 rq.nalloc rq.wqe_sz = some mb0 ∧
      rq.wq.wqes[rq.wq.head]? = some wqe ∧
      mlx5e_post_rx_wqes_loop env (fuel + 1) rq =
        mlx5e_post_rx_wqes_loop env fuel (post_step env rq mb0 wqe) := by
  obtain ⟨h1, h2⟩ := head_lt_of_wf env rq hwf hfree
  unfold alloc_ok at hok
  cases hg : env.m_get2 rq.nalloc rq.wqe_sz with
  | none => simp [hg] at hok
  | some mb0 =>
    simp only [Nat.add_zero, hg, Bool.not_eq_true', Bool.not_eq_eq_eq_not, Bool.not_true] at hok
    have hw : rq.wq.wqes[rq.wq.head]? = some (rq.wq.wqes[rq.wq.head]) :=
      List.getElem?_eq_getElem h1
    refine ⟨mb0, _, rfl, hw, ?_⟩
    simp [mlx5e_post_rx_wqes_loop, mlx5_wq_ll_is_full, hfree, mlx5e_alloc_rx_wqe, hg, hok, hw,
      h1, h2, post_step, mlx5_wq_ll_push]

/-! ## The slot table -/

theorem slot_mbuf_set (rq : Rq) (mbuf : List (Option Mbuf)) (ix : Nat) (o : Option Mbuf)
    (hix : ix < rq.mbuf.length) (hm : mbuf = rq.mbuf.set ix o) (rq1 : Rq) (h1 : rq1.mbuf = mbuf)
    (i : Nat) :
    slot_mbuf rq1 i = if i = ix then o else slot_mbuf rq i := by
  unfold slot_mbuf
  rw [h1, hm]
  by_cases h : i = ix
  · subst h
    simp only [List.getElem?_set_self hix, if_true]
    cases o <;> rfl
  · simp [List.getElem?_set_ne (Ne.symm h), h]

theorem in_flight_set_some (l : List (Option Mbuf)) (i : Nat) (mb : Mbuf)
    (h : l[i]? = some none) :
    List.Perm (in_flight (l.set i (some mb))) (mbuf_mapping mb :: in_flight l) := by
  induction l generalizing i with
  | nil => simp at h
  | cons a l ih =>
    cases i with
    | zero =>
      simp only [List.getElem?_cons_zero, Option.some.injEq] at h
      subst h
      simp [in_flight]
    | succ i =>
      simp only [List.getElem?_cons_succ] at h
      have := ih i h
      cases a with
      | none => simpa [in_flight] using this
      | some x =>
        simp only [in_flight, List.set_cons_succ] at this ⊢
        rw [List.filterMap_cons_some (Option.map_some' _ _),
          List.filterMap_cons_some (Option.map_some' _ _)]
        exact (List.Perm.cons _ this).trans (List.Perm.swap _ _ _)

theorem in_flight_set_none (l : List (Option Mbuf)) (i : Nat) (mb : Mbuf)
    (h : l[i]? = some (some mb)) :
    List.Perm (in_flight l) (mbuf_mapping mb :: in_flight (l.set i none)) := by
  induction l generalizing i with
  | nil => simp at h
  | cons a l ih =>
    cases i with
    | zero =>
      simp only [List.getElem?_cons_zero, Option.some.injEq] at h
      subst h
      simp [in_flight]
    | succ i =>
      simp only [List.getElem?_cons_succ] at h
      have := ih i h
      cases a with
      | none => simpa [in_flight] using this
      | some x =>
        simp only [in_flight, List.set_cons_succ] at this ⊢
        rw [List.filterMap_cons_some (Option.map_some' _ _),
          List.filterMap_cons_some (Option.map_some' _ _)]
        exact (List.Perm.cons _ this).trans (List.Perm.swap _ _ _)

/-! ## What one turn of the post loop preserves -/

theorem free_list_post_step (env : Env) (rq : Rq) (mb0 : Mbuf) (wqe : RxWqe)
    (hfree : rq.wq.free_cnt ≠ 0) (hw : rq.wq.wqes[rq.wq.head]? = some wqe) :
    free_list env rq = rq.wq.head :: free_list env (post_step env rq mb0 wqe) := by
  rw [free_list_head env rq hfree]
  congr 1
  have hn : wqe_next env rq.wq.wqes rq.wq.head = be16_to_cpu env wqe.next_wqe_index := by
    simp [wqe_next, hw]
  rw [hn]
  symm
  simp only [free_list, post_step]
  exact free_chain_congr env _ _ _ _ (fun i _ => wqe_next_set_addr env _ _ _ _ hw i)

theorem wf_post_step (env : Env) (rq : Rq) (mb0 : Mbuf) (wqe : RxWqe) (hwf : WqWf env rq)
    (hfree : rq.wq.free_cnt ≠ 0) (hw : rq.wq.wqes[rq.wq.head]? = some wqe) :
    WqWf env (post_step env rq mb0 wqe) := by
  have hl := free_list_post_step env rq mb0 wqe hfree hw
  obtain ⟨h1, h2, h3, h4⟩ := hwf
  rw [hl] at h3 h4
  refine ⟨?_, ?_, (List.nodup_cons.1 h3).2, ?_⟩
  · simp [post_step, h1]
  · simpa [post_step] using h2
  · intro i hi
    have := h4 i (List.mem_cons_of_mem _ hi)
    simpa [post_step] using this

theorem slot_inv_post_step (env : Env) (rq : Rq) (mb0 : Mbuf) (wqe : RxWqe)
    (hinv : SlotInv env rq)
    (hfree : rq.wq.free_cnt ≠ 0) (hw : rq.wq.wqes[rq.wq.head]? = some wqe) :
    SlotInv env (post_step env rq mb0 wqe) := by
  have hl := free_list_post_step env rq mb0 wqe hfree hw
  obtain ⟨hwf, hs⟩ := hinv
  have hhead := head_lt_of_wf env rq hwf hfree
  refine ⟨wf_post_step env rq mb0 wqe hwf hfree hw, ?_⟩
  intro i hi
  have hlen : (post_step env rq mb0 wqe).mbuf.length = rq.mbuf.length := by simp [post_step]
  have hlenw : (post_step env rq mb0 wqe).wq.wqes.length = rq.wq.wqes.length := by
    simp [post_step]
  rw [hlen] at hi
  have hnd := hwf.2.2.1
  rw [hl] at hnd
  have hsi := hs i hi
  rw [slot_mbuf_set rq _ rq.wq.head _ hhead.2 rfl (post_step env rq mb0 wqe) rfl i]
  unfold posted at hsi ⊢
  rw [hlenw]
  rw [hl] at hsi
  by_cases h : i = rq.wq.head
  · subst h
    simp only [if_true, Option.isSome_some, true_iff]
    exact ⟨hhead.1, (List.nodup_cons.1 hnd).1⟩
  · simp only [h, if_false]
    rw [hsi]
    simp [h]

theorem slot_empty_of_free (env : Env) (rq : Rq) (hinv : SlotInv env rq)
    (hfree : rq.wq.free_cnt ≠ 0) : rq.mbuf[rq.wq.head]? = some none := by
  obtain ⟨hwf, hs⟩ := hinv
  have hhead := head_lt_of_wf env rq hwf hfree
  have hmem : rq.wq.head ∈ free_list env rq := by
    rw [free_list_head env rq hfree]; exact List.mem_cons_self _ _
  have h1 := hs _ hhead.2
  have h2 : ¬ posted env rq rq.wq.head := fun h => h.2 hmem
  have h3 : ¬ (slot_mbuf rq rq.wq.head).isSome = true := fun h => h2 (h1.1 h)
  unfold slot_mbuf at h3
  have h4 : rq.mbuf[rq.wq.head]? = some (rq.mbuf[rq.wq.head]) := List.getElem?_eq_getElem hhead.2
  rw [h4] at h3 ⊢
  cases h5 : rq.mbuf[rq.wq.head] with
  | none => rfl
  | some mb => simp [h5] at h3

theorem dma_inv_post_step (env : Env) (rq : Rq) (mb0 : Mbuf) (wqe : RxWqe)
    (hinv : SlotInv env rq) (hdma : DmaInv env rq) (hfree : rq.wq.free_cnt ≠ 0)
    (hg : env.m_get2 rq.nalloc rq.wqe_sz = some mb0) (hok : alloc_ok env rq 0 = true) :
    DmaInv env (post_step env rq mb0 wqe) := by
  have hempty := slot_empty_of_free env rq hinv hfree
  unfold alloc_ok at hok
  simp only [Nat.add_zero, hg, Bool.not_eq_true', Bool.not_eq_eq_eq_not, Bool.not_true] at hok
  unfold DmaInv at hdma ⊢
  have hp := in_flight_set_some rq.mbuf rq.wq.head
    { env.m_adj mb0 MLX5E_NET_IP_ALIGN with
      dma_addr := env.dma_map_single rq.nmap
        ((env.m_adj mb0 MLX5E_NET_IP_ALIGN).m_data - MLX5E_NET_IP_ALIGN)
        ((env.m_adj mb0 MLX5E_NET_IP_ALIGN).m_len + MLX5E_NET_IP_ALIGN) } hempty
  simp only [post_step, dma_maps, dma_unmaps, List.filterMap_append, List.filterMap_cons,
    List.filterMap_nil, hok, Bool.false_eq_true, if_false, List.append_nil]
  simp only [dma_maps, dma_unmaps] at hdma
  refine List.Perm.trans ?_ (List.Perm.append_left _ hp.symm)
  simp only [mbuf_mapping]
  refine List.Perm.trans (List.Perm.append_right _ hdma) ?_
  rw [List.append_assoc]
  refine List.Perm.append_left _ ?_
  exact List.perm_append_singleton _ _

theorem alloc_ok_post_step (env : Env) (rq : Rq) (mb0 : Mbuf) (wqe : RxWqe) (j : Nat) :
    alloc_ok env (post_step env rq mb0 wqe) j = alloc_ok env rq (j + 1) := by
  simp only [alloc_ok, post_step]
  rw [show rq.nalloc + 1 + j = rq.nalloc + (j + 1) by omega,
    show rq.nmap + 1 + j = rq.nmap + (j + 1) by omega]

theorem free_list_post_fail (env : Env) (rq : Rq) :
    free_list env (post_fail env rq) = free_list env rq := rfl

theorem slot_inv_post_fail (env : Env) (rq : Rq) (hinv : SlotInv env rq) :
    SlotInv env (post_fail env rq) := hinv

theorem dma_inv_post_fail (env : Env) (rq : Rq) (hdma : DmaInv env rq)
    (hok : alloc_ok env rq 0 = false) : DmaInv env (post_fail env rq) := by
  unfold alloc_ok at hok
  unfold DmaInv at hdma ⊢
  unfold post_fail post_fail_events
  cases hg : env.m_get2 rq.nalloc rq.wqe_sz with
  | none => simpa [dma_maps, dma_unmaps] using hdma
  | some mb0 =>
    simp only [Nat.add_zero, hg, Bool.not_eq_false'] at hok
    simpa [dma_maps, dma_unmaps, hok] using hdma

/-! ## The loop of `mlx5e_post_rx_wqes` -/

theorem post_fail_events_counts (env : Env) (rq : Rq) :
    (post_fail_events env rq).countP Event.isPush = 0 ∧
    (post_fail_events env rq).countP Event.isAlloc =
      (post_fail_events env rq).countP Event.isFree ∧
    (post_fail_events env rq).countP Event.isGet = 1 ∧
    (∀ e ∈ post_fail_events env rq, e.isDoorbell = false ∧ e ≠ Event.wmb) ∧
    (post_fail_events env rq).countP Event.isFree =
      (if (env.m_get2 rq.nalloc rq.wqe_sz).isSome = true then 1 else 0) := by
  unfold post_fail_events
  cases env.m_get2 rq.nalloc rq.wqe_sz <;>
    simp [List.countP_cons, Event.isPush, Event.isAlloc, Event.isFree, Event.isGet,
      Event.isDoorbell]

/-- The loop of `mlx5e_post_rx_wqes` when the next `m` calls of
`mlx5e_alloc_rx_wqe` succeed and either the free list has `m` slots or call
`m` fails. -/
theorem post_loop_spec (env : Env) (m : Nat) : ∀ (fuel : Nat) (rq : Rq), WqWf env rq →
    m ≤ rq.wq.free_cnt → m < fuel →
    (∀ j < m, alloc_ok env rq j = true) →
    (m = rq.wq.free_cnt ∨ alloc_ok env rq m = false) →
    ∃ rq1, mlx5e_post_rx_wqes_loop env fuel rq = some rq1 ∧
      rq1.wq.free_cnt + m = rq.wq.free_cnt ∧
      rq1.wq.wqe_ctr = rq.wq.wqe_ctr + m ∧
      free_list env rq = (free_list env rq).take m ++ free_list env rq1 ∧
      (∀ i ∈ (free_list env rq).take m,
        ∃ mb, rq1.mbuf[i]? = some (some mb) ∧ env.dma_mapping_error mb.dma_addr = false) ∧
      (∀ i, i ∉ (free_list env rq).take m → rq1.mbuf[i]? = rq.mbuf[i]?) ∧
      rq1.nalloc = rq.nalloc + m + (if m < rq.wq.free_cnt then 1 else 0) ∧
      ∃ evs, rq1.trace = rq.trace ++ evs ∧
        evs.countP Event.isPush = m ∧
        evs.countP Event.isAlloc = m + evs.countP Event.isFree ∧
        evs.countP Event.isGet = m + (if m < rq.wq.free_cnt then 1 else 0) ∧
        (∀ e ∈ evs, e.isDoorbell = false ∧ e ≠ Event.wmb) ∧
        evs.countP Event.isFree =
          (if m < rq.wq.free_cnt ∧ (env.m_get2 (rq.nalloc + m) rq.wqe_sz).isSome = true
            then 1 else 0) := by
  induction m with
  | zero =>
    intro fuel rq hwf _ hfuel _ hstop
    obtain ⟨f, rfl⟩ := Nat.exists_eq_succ_of_ne_zero (Nat.pos_iff_ne_zero.1 hfuel)
    by_cases hfree : rq.wq.free_cnt = 0
    · refine ⟨rq, post_loop_full env f rq hfree, by simp, by simp, by simp, by simp, by simp,
        by simp [hfree], [], by simp, by simp, by simp, by simp [hfree], by simp,
        by simp [hfree]⟩
    · have hok : alloc_ok env rq 0 = false := by
        rcases hstop with h | h
        · exact absurd h.symm hfree
        · exact h
      obtain ⟨c1, c2, c3, c4, c5⟩ := post_fail_events_counts env rq
      refine ⟨post_fail env rq, post_loop_fail env f rq hfree hok, by simp [post_fail],
        by simp [post_fail], by simp [free_list_post_fail], by simp, by simp [post_fail],
        ?_, post_fail_events env rq, by simp [post_fail], c1, by simpa using c2, ?_, c4, ?_⟩
      · simp [post_fail, Nat.pos_of_ne_zero hfree]
      · simp [c3, Nat.pos_of_ne_zero hfree]
      · rw [c5]
        simp [Nat.pos_of_ne_zero hfree]
  | succ m ih =>
    intro fuel rq hwf hm hfuel hall hstop
    obtain ⟨f, rfl⟩ := Nat.exists_eq_succ_of_ne_zero (Nat.pos_iff_ne_zero.1 (by omega : 0 < fuel))
    have hfree : rq.wq.free_cnt ≠ 0 := by omega
    have hok : alloc_ok env rq 0 = true := hall 0 (by omega)
    obtain ⟨mb0, wqe, hg, hw, hloop⟩ := post_loop_ok env f rq hwf hfree hok
    have hl := free_list_post_step env rq mb0 wqe hfree hw
    have hwf2 := wf_post_step env rq mb0 wqe hwf hfree hw
    have hcnt : (post_step env rq mb0 wqe).wq.free_cnt = rq.wq.free_cnt - 1 := rfl
    obtain ⟨rq1, h0, h1, h2, h3, h4, h5, h6, evs, h7, h8, h9, h10, h11, h12⟩ :=
      ih f (post_step env rq mb0 wqe) hwf2 (by rw [hcnt]; omega) (by omega)
        (fun j hj => by rw [alloc_ok_post_step]; exact hall (j + 1) (by omega))
        (by
          rcases hstop with h | h
          · left; rw [hcnt]; omega
          · right; rw [alloc_ok_post_step]; exact h)
    have hnd := hwf.2.2.1
    rw [hl] at hnd
    have hhead := head_lt_of_wf env rq hwf hfree
    have hnot : rq.wq.head ∉ (free_list env (post_step env rq mb0 wqe)).take m :=
      fun h => (List.nodup_cons.1 hnd).1 (List.mem_of_mem_take h)
    have hokb := hok
    unfold alloc_ok at hokb
    simp only [Nat.add_zero, hg, Bool.not_eq_true', Bool.not_eq_eq_eq_not, Bool.not_true] at hokb
    refine ⟨rq1, hloop.trans h0, ?_, ?_, ?_, ?_, ?_, ?_, ?_⟩
    · rw [hcnt] at h1; omega
    · rw [h2]; simp only [post_step]; omega
    · rw [hl, List.take_succ_cons, List.cons_append, ← h3]
    · intro i hi
      rw [hl, List.take_succ_cons, List.mem_cons] at hi
      rcases hi with rfl | hi
      · rw [h5 _ hnot]
        refine ⟨{ env.m_adj mb0 MLX5E_NET_IP_ALIGN with
          dma_addr := env.dma_map_single rq.nmap
            ((env.m_adj mb0 MLX5E_NET_IP_ALIGN).m_data - MLX5E_NET_IP_ALIGN)
            ((env.m_adj mb0 MLX5E_NET_IP_ALIGN).m_len + MLX5E_NET_IP_ALIGN) }, ?_, ?_⟩
        · simp only [post_step]
          exact List.getElem?_set_self hhead.2
        · exact hokb
      · exact h4 i hi
    · intro i hi
      rw [hl, List.take_succ_cons, List.mem_cons, not_or] at hi
      rw [h5 i hi.2]
      simp only [post_step]
      exact List.getElem?_set_ne (Ne.symm hi.1)
    · rw [h6, hcnt]
      simp only [post_step]
      have : (m < rq.wq.free_cnt - 1) ↔ (m + 1 < rq.wq.free_cnt) := by omega
      simp only [this]
      omega
    · refine ⟨[Event.mGet rq.wqe_sz (some mb0),
        Event.dmaMap ((env.m_adj mb0 MLX5E_NET_IP_ALIGN).m_data - MLX5E_NET_IP_ALIGN)
          ((env.m_adj mb0 MLX5E_NET_IP_ALIGN).m_len + MLX5E_NET_IP_ALIGN)
          DmaDir.DMA_FROM_DEVICE
          (env.dma_map_single rq.nmap
            ((env.m_adj mb0 MLX5E_NET_IP_ALIGN).m_data - MLX5E_NET_IP_ALIGN)
            ((env.m_adj mb0 MLX5E_NET_IP_ALIGN).m_len + MLX5E_NET_IP_ALIGN)),
        Event.wqeWrite rq.wq.head, Event.wqPush rq.wq.head] ++ evs, ?_, ?_, ?_, ?_, ?_, ?_⟩
      · rw [h7]; simp [post_step]
      · simp [List.countP_cons, Event.isPush, h8]
      · simp [List.countP_cons, Event.isAlloc, Event.isFree, h9]; omega
      · rw [List.countP_append, h10, hcnt]
        have : (m < rq.wq.free_cnt - 1) ↔ (m + 1 < rq.wq.free_cnt) := by omega
        simp only [this]
        simp [List.countP_cons, Event.isGet]; omega
      · intro e he
        rw [List.mem_append] at he
        rcases he with he | he
        · simp only [List.mem_cons, List.mem_singleton, List.not_mem_nil, or_false] at he
          rcases he with rfl | rfl | rfl | rfl <;> simp [Event.isDoorbell]
        · exact h11 e he
      · rw [List.countP_append, h12, hcnt]
        have hidx : (post_step env rq mb0 wqe).nalloc + m = rq.nalloc + (m + 1) := by
          simp only [post_step]; omega
        have hsz : (post_step env rq mb0 wqe).wqe_sz = rq.wqe_sz := rfl
        have : (m < rq.wq.free_cnt - 1) ↔ (m + 1 < rq.wq.free_cnt) := by omega
        rw [hidx, hsz]
        simp only [this]
        simp [List.countP_cons, Event.isFree]

/-- The slot-table and DMA invariants across the loop of `mlx5e_post_rx_wqes`,
which returns on every well-formed queue. -/
theorem post_loop_inv (env : Env) (n : Nat) : ∀ (fuel : Nat) (rq : Rq),
    rq.wq.free_cnt = n → n < fuel → SlotInv env rq →
    ∃ rq1, mlx5e_post_rx_wqes_loop env fuel rq = some rq1 ∧ SlotInv env rq1 ∧
      (DmaInv env rq → DmaInv env rq1) := by
  induction n with
  | zero =>
    intro fuel rq hn hfuel hinv
    obtain ⟨f, rfl⟩ := Nat.exists_eq_succ_of_ne_zero (Nat.pos_iff_ne_zero.1 hfuel)
    exact ⟨rq, post_loop_full env f rq hn, hinv, id⟩
  | succ n ih =>
    intro fuel rq hn hfuel hinv
    obtain ⟨f, rfl⟩ := Nat.exists_eq_succ_of_ne_zero (Nat.pos_iff_ne_zero.1 (by omega : 0 < fuel))
    have hfree : rq.wq.free_cnt ≠ 0 := by omega
    cases hok : alloc_ok env rq 0 with
    | false =>
      exact ⟨post_fail env rq, post_loop_fail env f rq hfree hok, slot_inv_post_fail env rq hinv,
        fun hd => dma_inv_post_fail env rq hd hok⟩
    | true =>
      obtain ⟨mb0, wqe, hg, hw, hloop⟩ := post_loop_ok env f rq hinv.1 hfree hok
      obtain ⟨rq1, h1, h2, h3⟩ := ih f (post_step env rq mb0 wqe)
        (by simp only [post_step]; omega) (by omega) (slot_inv_post_step env rq mb0 wqe hinv hfree hw)
      exact ⟨rq1, hloop.trans h1, h2,
        fun hd => h3 (dma_inv_post_step env rq mb0 wqe hinv hd hfree hg hok)⟩

/-- The invariants across `mlx5e_post_rx_wqes`. -/
theorem post_rx_wqes_inv (env : Env) (rq : Rq) (hinv : SlotInv env rq) :
    ∃ rq1, mlx5e_post_rx_wqes env rq = some rq1 ∧ SlotInv env rq1 ∧
      (DmaInv env rq → DmaInv env rq1) := by
  unfold mlx5e_post_rx_wqes
  by_cases hen : rq.enabled = 0
  · exact ⟨rq, by simp [hen], hinv, id⟩
  · obtain ⟨rq1, h1, h2, h3⟩ := post_loop_inv env rq.wq.free_cnt (rq.wq.free_cnt + 1) rq rfl
      (by omega) hinv
    refine ⟨{ rq1 with
        wq := mlx5_wq_ll_update_db_record rq1.wq,
        trace := rq1.trace ++ [Event.wmb, Event.wqDoorbell rq1.wq.head] },
      by simp only [hen, if_false, h1], ?_, ?_⟩
    · exact h2
    · intro hd
      have := h3 hd
      unfold DmaInv at this ⊢
      simpa [dma_maps, dma_unmaps] using this

/-- The trace of the loop of `mlx5e_post_rx_wqes` holds neither a doorbell
store nor a fence. -/
theorem post_loop_trace (env : Env) (fuel : Nat) : ∀ (rq rq1 : Rq),
    mlx5e_post_rx_wqes_loop env fuel rq = some rq1 →
    ∃ evs, rq1.trace = rq.trace ++ evs ∧ ∀ e ∈ evs, e.isDoorbell = false ∧ e ≠ Event.wmb := by
  induction fuel with
  | zero => intro rq rq1 h; simp [mlx5e_post_rx_wqes_loop] at h
  | succ f ih =>
    intro rq rq1 h
    unfold mlx5e_post_rx_wqes_loop at h
    split_ifs at h with hfull
    · simp only [Option.some.injEq] at h
      subst h
      exact ⟨[], by simp, by simp⟩
    · cases ha : mlx5e_alloc_rx_wqe env rq rq.wq.head rq.wq.head with
      | none => simp [ha] at h
      | some r =>
        obtain ⟨ret, rq2⟩ := r
        simp only [ha] at h
        rcases alloc_rx_wqe_cases env rq rq2 _ _ ret ha with ⟨_, hr, h2⟩ | ⟨mb0, _, _, hr, h2⟩ |
          ⟨mb0, wqe, _, _, _, _, hr, h2⟩
        · subst hr
          simp only [ENOMEM, ne_eq, neg_eq_zero, OfNat.ofNat_ne_zero, not_false_eq_true, if_true,
            Option.some.injEq] at h
          subst h
          subst h2
          exact ⟨_, rfl, by simp [Event.isDoorbell]⟩
        · subst hr
          simp only [ENOMEM, ne_eq, neg_eq_zero, OfNat.ofNat_ne_zero, not_false_eq_true, if_true,
            Option.some.injEq] at h
          subst h
          subst h2
          exact ⟨_, rfl, by simp [Event.isDoorbell]⟩
        · subst hr
          simp only [ne_eq, not_true_eq_false, if_false] at h
          split at h
          · simp at h
          · obtain ⟨evs, h3, h4⟩ := ih _ _ h
            subst h2
            refine ⟨_, by rw [h3]; simp only [List.append_assoc]; rfl, ?_⟩
            intro e he
            simp only [List.cons_append, List.nil_append, List.mem_cons] at he
            rcases he with rfl | rfl | rfl | rfl | he
            · simp [Event.isDoorbell]
            · simp [Event.isDoorbell]
            · simp [Event.isDoorbell]
            · simp [Event.isDoorbell]
            · exact h4 e he

theorem doorbells_fenced_quiet (evs tl : List Event) (f : Bool)
    (h : ∀ e ∈ evs, e.isDoorbell = false ∧ e ≠ Event.wmb) :
    doorbells_fenced f (evs ++ Event.wmb :: tl) = doorbells_fenced true tl := by
  induction evs generalizing f with
  | nil => simp [doorbells_fenced]
  | cons e es ih =>
    have he := h e (List.mem_cons_self _ _)
    have hes := fun e1 h1 => h e1 (List.mem_cons_of_mem _ h1)
    simp only [List.cons_append, doorbells_fenced, he.2, if_false, he.1, Bool.false_eq_true]
    split_ifs <;> exact ih _ hes

/-! ## `mlx5e_post_rx_wqes` -/

theorem isWqDoorbell_false (e : Event) (h : e.isDoorbell = false) : e.isWqDoorbell = false := by
  cases e <;> simp [Event.isWqDoorbell, Event.isDoorbell] at h ⊢

/-- One call of `mlx5e_post_rx_wqes` on an enabled, well-formed queue, when the
next `m` calls of `mlx5e_alloc_rx_wqe` succeed and either the free list has `m`
slots or call `m` fails: exactly `m` descriptors are posted. -/
theorem post_rx_wqes_spec (env : Env) (rq : Rq) (m : Nat)
    (hen : rq.enabled ≠ 0) (hwf : WqWf env rq) (hm : m ≤ rq.wq.free_cnt)
    (hall : ∀ j < m, alloc_ok env rq j = true)
    (hstop : m = rq.wq.free_cnt ∨ alloc_ok env rq m = false) :
    ∃ rq1, mlx5e_post_rx_wqes env rq = some rq1 ∧
      (new_events rq rq1).countP Event.isPush = m ∧
      rq1.wq.free_cnt + m = rq.wq.free_cnt ∧
      free_list env rq = (free_list env rq).take m ++ free_list env rq1 ∧
      (∀ i ∈ (free_list env rq).take m,
        ∃ mb, slot_mbuf rq1 i = some mb ∧ env.dma_mapping_error mb.dma_addr = false) ∧
      (new_events rq rq1).countP Event.isGet = m + (if m < rq.wq.free_cnt then 1 else 0) ∧
      (new_events rq rq1).countP Event.isWqDoorbell = 1 ∧
      (new_events rq rq1).countP Event.isAlloc =
        (new_events rq rq1).countP Event.isPush + (new_events rq rq1).countP Event.isFree ∧
      (new_events rq rq1).countP Event.isFree =
        (if m < rq.wq.free_cnt ∧ (env.m_get2 (rq.nalloc + m) rq.wqe_sz).isSome = true
          then 1 else 0) := by
  obtain ⟨rq1, h0, h1, _, h3, h4, _, _, evs, h7, h8, h9, h10, h11, h12⟩ :=
    post_loop_spec env m (rq.wq.free_cnt + 1) rq hwf hm (by omega) hall hstop
  have hq : ∀ e ∈ evs, e.isWqDoorbell = false := by
    intro e he
    exact isWqDoorbell_false e (h11 e he).1
  have hq0 : evs.countP Event.isWqDoorbell = 0 := by
    rw [List.countP_eq_zero]
    intro e he
    simp [hq e he]
  refine ⟨{ rq1 with
      wq := mlx5_wq_ll_update_db_record rq1.wq,
      trace := rq1.trace ++ [Event.wmb, Event.wqDoorbell rq1.wq.head] },
    by simp only [mlx5e_post_rx_wqes, hen, if_false, h0], ?_⟩
  have hev : new_events rq { rq1 with
      wq := mlx5_wq_ll_update_db_record rq1.wq,
      trace := rq1.trace ++ [Event.wmb, Event.wqDoorbell rq1.wq.head] } =
      evs ++ [Event.wmb, Event.wqDoorbell rq1.wq.head] :=
    new_events_eq _ _ _ (by simp [h7])
  rw [hev]
  refine ⟨?_, ?_, ?_, ?_, ?_, ?_, ?_, ?_⟩
  · simp [List.countP_append, List.countP_cons, Event.isPush, h8]
  · simpa [mlx5_wq_ll_update_db_record] using h1
  · exact h3
  · intro i hi
    obtain ⟨mb, hmb, hd⟩ := h4 i hi
    exact ⟨mb, by simp [slot_mbuf, hmb], hd⟩
  · simp [List.countP_append, List.countP_cons, Event.isGet, h10]
  · simp [List.countP_append, List.countP_cons, Event.isWqDoorbell, hq0]
  · simp [List.countP_append, List.countP_cons, Event.isAlloc, Event.isPush, Event.isFree, h8, h9]
  · rw [List.countP_append, h12]
    simp [List.countP_cons, Event.isFree]

theorem alloc_run_from_spec (env : Env) (rq : Rq) (n : Nat) : ∀ j : Nat,
    alloc_run_from env rq n j ≤ n ∧
    (∀ i < alloc_run_from env rq n j, alloc_ok env rq (j + i) = true) ∧
    (alloc_run_from env rq n j = n ∨
      alloc_ok env rq (j + alloc_run_from env rq n j) = false) := by
  induction n with
  | zero => intro j; simp [alloc_run_from]
  | succ n ih =>
    intro j
    obtain ⟨i1, i2, i3⟩ := ih (j + 1)
    simp only [alloc_run_from]
    cases hok : alloc_ok env rq j with
    | false => simp [hok]
    | true =>
      simp only [if_true]
      refine ⟨by omega, ?_, ?_⟩
      · intro i hi
        cases i with
        | zero => simpa using hok
        | succ i =>
          have := i2 i (by omega)
          rwa [show j + 1 + i = j + (i + 1) by omega] at this
      · rcases i3 with h | h
        · left; omega
        · right
          rwa [show j + 1 + alloc_run_from env rq n (j + 1) =
            j + (1 + alloc_run_from env rq n (j + 1)) by omega] at h

theorem alloc_run_spec (env : Env) (rq : Rq) (n : Nat) :
    alloc_run env rq n ≤ n ∧
    (∀ i < alloc_run env rq n, alloc_ok env rq i = true) ∧
    (alloc_run env rq n = n ∨ alloc_ok env rq (alloc_run env rq n) = false) := by
  have := alloc_run_from_spec env rq n 0
  simpa [alloc_run] using this

/-- C6, as amended: on an enabled, well-formed queue with `n` free slots and a
pool that succeeds for its next `k` calls and then fails, whatever the DMA layer
does, one call of `mlx5e_post_rx_wqes` returns and posts exactly
`alloc_run env rq n` descriptors, the number of allocate-and-map calls that
succeed before the first failure of either kind: at most `min k n`, and exactly
`min k n` when none of the first `min k n` mappings fails.  That many slots
leave the free list, its first slots, each now holding a packet with a valid
bus address.  The pool is called once per posted descriptor, plus once more
(the call that fails or whose packet cannot be mapped) when slots are left
free, so nothing is retried; the posted-buffer doorbell is written once; every
packet the pool handed out was pushed or freed, and exactly one packet is
freed when a mapping failed (fewer than `min k n` posted), none otherwise. -/
theorem post_rx_wqes_posts_min (env : Env) (rq : Rq) (n k : Nat)
    (hen : rq.enabled ≠ 0) (hwf : WqWf env rq) (hn : rq.wq.free_cnt = n)
    (hpool : ∀ j < k, (env.m_get2 (rq.nalloc + j) rq.wqe_sz).isSome = true)
    (hfail : env.m_get2 (rq.nalloc + k) rq.wqe_sz = none) :
    ∃ rq1, mlx5e_post_rx_wqes env rq = some rq1 ∧
      (new_events rq rq1).countP Event.isPush = alloc_run env rq n ∧
      alloc_run env rq n ≤ min k n ∧
      ((∀ j < min k n, ∀ mb0, env.m_get2 (rq.nalloc + j) rq.wqe_sz = some mb0 →
          env.dma_mapping_error (env.dma_map_single (rq.nmap + j)
            ((env.m_adj mb0 MLX5E_NET_IP_ALIGN).m_data - MLX5E_NET_IP_ALIGN)
            ((env.m_adj mb0 MLX5E_NET_IP_ALIGN).m_len + MLX5E_NET_IP_ALIGN)) = false) →
        alloc_run env rq n = min k n) ∧
      rq1.wq.free_cnt = n - alloc_run env rq n ∧
      free_list env rq = (free_list env rq).take (alloc_run env rq n) ++ free_list env rq1 ∧
      (∀ i ∈ (free_list env rq).take (alloc_run env rq n),
        ∃ mb, slot_mbuf rq1 i = some mb ∧ env.dma_mapping_error mb.dma_addr = false) ∧
      (new_events rq rq1).countP Event.isGet =
        alloc_run env rq n + (if alloc_run env rq n < n then 1 else 0) ∧
      (new_events rq rq1).countP Event.isWqDoorbell = 1 ∧
      (new_events rq rq1).countP Event.isAlloc =
        (new_events rq rq1).countP Event.isPush + (new_events rq rq1).countP Event.isFree ∧
      (new_events rq rq1).countP Event.isFree =
        (if alloc_run env rq n < min k n then 1 else 0) := by
  obtain ⟨r1, r2, r3⟩ := alloc_run_spec env rq n
  have hk0 : alloc_ok env rq k = false := by simp [alloc_ok, hfail]
  have hmk : alloc_run env rq n ≤ k := by
    by_contra hlt
    have := r2 k (by omega)
    rw [hk0] at this
    exact absurd this (by simp)
  have hdm : (∀ j < min k n, ∀ mb0, env.m_get2 (rq.nalloc + j) rq.wqe_sz = some mb0 →
      env.dma_mapping_error (env.dma_map_single (rq.nmap + j)
        ((env.m_adj mb0 MLX5E_NET_IP_ALIGN).m_data - MLX5E_NET_IP_ALIGN)
        ((env.m_adj mb0 MLX5E_NET_IP_ALIGN).m_len + MLX5E_NET_IP_ALIGN)) = false) →
      alloc_run env rq n = min k n := by
    intro hdma
    by_contra hne
    have hlt : alloc_run env rq n < min k n := by omega
    rcases r3 with h | h
    · omega
    · have h1 := hpool (alloc_run env rq n) (by omega)
      unfold alloc_ok at h
      cases hg : env.m_get2 (rq.nalloc + alloc_run env rq n) rq.wqe_sz with
      | none => simp [hg] at h1
      | some mb0 =>
        have := hdma _ hlt mb0 hg
        simp [hg, this] at h
  obtain ⟨rq1, h0, h1, h2, h3, h4, h5, h6, h7, h8⟩ :=
    post_rx_wqes_spec env rq (alloc_run env rq n) hen hwf (by rw [hn]; exact r1) r2
      (by rw [hn]; exact r3)
  refine ⟨rq1, h0, h1, by omega, hdm, by omega, h3, h4, ?_, h6, h7, ?_⟩
  · rw [h5, hn]
  · rw [h8, hn]
    by_cases hlt : alloc_run env rq n < min k n
    · have hs := hpool (alloc_run env rq n) (by omega)
      have hln : alloc_run env rq n < n := by omega
      simp [hlt, hs, hln]
    · have hm : alloc_run env rq n = min k n := by omega
      by_cases hkn : k < n
      · have hmk2 : alloc_run env rq n = k := by omega
        simp [hlt, hmk2, hfail]
      · have hln : ¬ alloc_run env rq n < n := by omega
        simp [hlt, hln]

/-- Witness for C6: four free slots, a pool of three packets, and a DMA layer whose
second mapping fails: one descriptor posted, two pool calls, one packet freed. -/
theorem post_rx_wqes_posts_min_witness :
    ∃ rq1, mlx5e_post_rx_wqes (env_map_fails_at 3 1) rq_sample = some rq1 ∧
      (new_events rq_sample rq1).countP Event.isPush = alloc_run (env_map_fails_at 3 1) rq_sample 4 ∧
      alloc_run (env_map_fails_at 3 1) rq_sample 4 ≤ min 3 4 ∧
      ((∀ j < min 3 4, ∀ mb0,
          (env_map_fails_at 3 1).m_get2 (rq_sample.nalloc + j) rq_sample.wqe_sz = some mb0 →
          (env_map_fails_at 3 1).dma_mapping_error
            ((env_map_fails_at 3 1).dma_map_single (rq_sample.nmap + j)
              (((env_map_fails_at 3 1).m_adj mb0 MLX5E_NET_IP_ALIGN).m_data - MLX5E_NET_IP_ALIGN)
              (((env_map_fails_at 3 1).m_adj mb0 MLX5E_NET_IP_ALIGN).m_len + MLX5E_NET_IP_ALIGN))
            = false) →
        alloc_run (env_map_fails_at 3 1) rq_sample 4 = min 3 4) ∧
      rq1.wq.free_cnt = 4 - alloc_run (env_map_fails_at 3 1) rq_sample 4 ∧
      free_list (env_map_fails_at 3 1) rq_sample =
        (free_list (env_map_fails_at 3 1) rq_sample).take
          (alloc_run (env_map_fails_at 3 1) rq_sample 4) ++
          free_list (env_map_fails_at 3 1) rq1 ∧
      (∀ i ∈ (free_list (env_map_fails_at 3 1) rq_sample).take
          (alloc_run (env_map_fails_at 3 1) rq_sample 4),
        ∃ mb, slot_mbuf rq1 i = some mb ∧
          (env_map_fails_at 3 1).dma_mapping_error mb.dma_addr = false) ∧
      (new_events rq_sample rq1).countP Event.isGet =
        alloc_run (env_map_fails_at 3 1) rq_sample 4 +
          (if alloc_run (env_map_fails_at 3 1) rq_sample 4 < 4 then 1 else 0) ∧
      (new_events rq_sample rq1).countP Event.isWqDoorbell = 1 ∧
      (new_events rq_sample rq1).countP Event.isAlloc =
        (new_events rq_sample rq1).countP Event.isPush +
          (new_events rq_sample rq1).countP Event.isFree ∧
      (new_events rq_sample rq1).countP Event.isFree =
        (if alloc_run (env_map_fails_at 3 1) rq_sample 4 < min 3 4 then 1 else 0) :=
  post_rx_wqes_posts_min (env_map_fails_at 3 1) rq_sample 4 3 (by decide) (by decide) rfl
    (by decide) (by decide)

/-- Counterexample for C6: the sample queue is enabled, well formed and has
`n = 4` free slots; the pool succeeds for its first `k = 1` call and then fails;
the DMA mapping of the first packet fails.  `mlx5e_post_rx_wqes` posts no
descriptor, not `min 1 4 = 1`. -/
theorem post_rx_wqes_dma_failure_counterexample :
    rq_sample.enabled ≠ 0 ∧ WqWf (env_sample 1 false) rq_sample ∧ rq_sample.wq.free_cnt = 4 ∧
    (∀ j < 1, ((env_sample 1 false).m_get2 (rq_sample.nalloc + j) rq_sample.wqe_sz).isSome = true) ∧
    (env_sample 1 false).m_get2 (rq_sample.nalloc + 1) rq_sample.wqe_sz = none ∧
    ∃ rq1, mlx5e_post_rx_wqes (env_sample 1 false) rq_sample = some rq1 ∧
      (new_events rq_sample rq1).countP Event.isPush = 0 ∧
      rq1.wq.free_cnt = 4 ∧
      (new_events rq_sample rq1).countP Event.isPush ≠ min 1 4 := by
  refine ⟨by decide, by decide, by decide, by decide, by decide, _, rfl, ?_, ?_, ?_⟩ <;> decide

/-! ## One turn of the loop of `mlx5e_poll_rx_cq` -/

/-- The loop body on a completion whose slot holds the packet `mb`. -/
theorem poll_iter_spec (env : Env) (rq : Rq) (cqe : Cqe) (mb : Mbuf) (wqe : RxWqe)
    (hmb : rq.mbuf[be16_to_cpu env cqe.wqe_counter]? = some (some mb))
    (hw : rq.wq.wqes[be16_to_cpu env cqe.wqe_counter]? = some wqe) :
    ∃ rq1 mid, mlx5e_poll_rx_cq_iter env rq cqe = some rq1 ∧
      rq1.cq = rq.cq ∧
      rq1.mbuf = rq.mbuf.set (be16_to_cpu env cqe.wqe_counter) none ∧
      rq1.wq = { rq.wq with
        wqes := rq.wq.wqes.set (be16_to_cpu env cqe.wqe_counter)
          { wqe with next_wqe_index := cpu_to_be16 env rq.wq.head },
        head := be16_to_cpu env cqe.wqe_counter,
        free_cnt := rq.wq.free_cnt + 1 } ∧
      rq1.trace = rq.trace ++
        (Event.dmaUnmap mb.dma_addr (mb.m_len + MLX5E_NET_IP_ALIGN) DmaDir.DMA_FROM_DEVICE ::
          mid ++ [Event.wqPop (be16_to_cpu env cqe.wqe_counter)]) ∧
      (∀ e ∈ mid, e.isFree = true ∨ e.isLroRx = true ∨ e.isInput = true) ∧
      (rq1.stats.packets + rq1.stats.wqe_err = rq.stats.packets + rq.stats.wqe_err + 1 ∧
        rq.stats.packets ≤ rq1.stats.packets ∧ rq.stats.wqe_err ≤ rq1.stats.wqe_err) := by
  by_cases hop : cqe.op_own >>> 4 = MLX5_CQE_RESP_SEND
  · have hb := build_rx_mbuf_fst_congr env cqe rq
      { rq with
        mbuf := rq.mbuf.set (be16_to_cpu env cqe.wqe_counter) none,
        trace := rq.trace ++ [Event.dmaUnmap mb.dma_addr (mb.m_len + MLX5E_NET_IP_ALIGN)
          DmaDir.DMA_FROM_DEVICE] } mb rfl rfl
    simp only [mlx5e_poll_rx_cq_iter, hmb, hop, ne_eq, not_true_eq_false, if_false]
    rw [rx_input_eq, build_rx_mbuf_snd, hb]
    generalize (mlx5e_build_rx_mbuf env cqe rq mb).1 = mb1
    simp only [mlx5_wq_ll_pop, hw]
    refine ⟨_, (if mb1.csum_flags ≠ 0 ∧ rq.netdev.if_capenable &&& IFCAP_LRO ≠ 0 ∧
        rq.lro.lro_cnt ≠ 0 then
          (if (env.tcp_lro_rx rq.lro mb1).1 = 0 then [Event.lroRx mb1 (env.tcp_lro_rx rq.lro mb1).1]
           else [Event.lroRx mb1 (env.tcp_lro_rx rq.lro mb1).1, Event.ifInput mb1])
        else [Event.ifInput mb1]), rfl, rfl, rfl, rfl, ?_, ?_, ?_⟩
    · simp only [List.append_assoc, List.singleton_append, List.cons_append, List.nil_append]
    · intro e he
      split_ifs at he <;> simp at he <;> rcases he with rfl | rfl <;>
        simp [Event.isFree, Event.isLroRx, Event.isInput]
    · simp only
      omega
  · simp only [mlx5e_poll_rx_cq_iter, hmb, hop, ne_eq, not_false_eq_true, if_true,
      mlx5_wq_ll_pop, hw]
    refine ⟨_, [Event.mFree mb], rfl, rfl, rfl, rfl, by simp, by simp [Event.isFree], ?_⟩
    simp only
    omega

/-- The loop body returns only on a completion whose slot holds a packet. -/
theorem poll_iter_some (env : Env) (rq rq1 : Rq) (cqe : Cqe)
    (h : mlx5e_poll_rx_cq_iter env rq cqe = some rq1) :
    ∃ mb wqe, rq.mbuf[be16_to_cpu env cqe.wqe_counter]? = some (some mb) ∧
      rq.wq.wqes[be16_to_cpu env cqe.wqe_counter]? = some wqe := by
  unfold mlx5e_poll_rx_cq_iter at h
  simp only at h
  cases hmb : rq.mbuf[be16_to_cpu env cqe.wqe_counter]? with
  | none => simp [hmb] at h
  | some o =>
    cases o with
    | none => simp [hmb] at h
    | some mb =>
      refine ⟨mb, ?_⟩
      simp only [hmb] at h
      cases hw : rq.wq.wqes[be16_to_cpu env cqe.wqe_counter]? with
      | some wqe => exact ⟨wqe, rfl, rfl⟩
      | none =>
        exfalso
        by_cases hop : cqe.op_own >>> 4 = MLX5_CQE_RESP_SEND
        · simp only [hop, ne_eq, not_true_eq_false, if_false] at h
          rw [rx_input_eq, build_rx_mbuf_snd] at h
          simp [mlx5_wq_ll_pop, hw] at h
        · simp [hop, mlx5_wq_ll_pop, hw] at h

/-- The free list after a pop of a posted slot `c`: `c` in front of the old
free list. -/
theorem free_chain_pop (env : Env) (rq : Rq) (c : Nat) (wqe : RxWqe) (hwf : WqWf env rq)
    (hw : rq.wq.wqes[c]? = some wqe) (hc : c ∉ free_list env rq) :
    free_chain env
      (rq.wq.wqes.set c { wqe with next_wqe_index := cpu_to_be16 env rq.wq.head })
      (rq.wq.free_cnt + 1) c = c :: free_list env rq := by
  have hclt : c < rq.wq.wqes.length := (List.getElem?_eq_some.1 hw).1
  simp only [free_chain]
  congr 1
  by_cases hfree : rq.wq.free_cnt = 0
  · simp [free_list, hfree, free_chain]
  · have hhead := head_lt_of_wf env rq hwf hfree
    have hn : wqe_next env
        (rq.wq.wqes.set c { wqe with next_wqe_index := cpu_to_be16 env rq.wq.head }) c =
        rq.wq.head := by
      simp only [wqe_next, List.getElem?_set_self hclt]
      exact be16_roundtrip env _ (by have := hwf.2.1; omega)
    rw [hn]
    unfold free_list at hc ⊢
    refine free_chain_congr env _ _ _ _ (fun i hi => wqe_next_set_ne env _ _ _ _ ?_)
    rintro rfl
    exact hc hi

theorem slot_inv_poll_iter (env : Env) (rq rq1 : Rq) (cqe : Cqe) (hinv : SlotInv env rq)
    (h : mlx5e_poll_rx_cq_iter env rq cqe = some rq1) : SlotInv env rq1 := by
  obtain ⟨mb, wqe, hmb, hw⟩ := poll_iter_some env rq rq1 cqe h
  obtain ⟨rq2, mid, h1, _, hmbuf, hwq, _, _, _⟩ := poll_iter_spec env rq cqe mb wqe hmb hw
  rw [h] at h1
  simp only [Option.some.injEq] at h1
  subst h1
  obtain ⟨hwf, hs⟩ := hinv
  have hclt : be16_to_cpu env cqe.wqe_counter < rq.mbuf.length := (List.getElem?_eq_some.1 hmb).1
  have hsome : (slot_mbuf rq (be16_to_cpu env cqe.wqe_counter)).isSome = true := by
    simp [slot_mbuf, hmb]
  have hposted := (hs _ hclt).1 hsome
  have hfl : free_list env rq1 = be16_to_cpu env cqe.wqe_counter :: free_list env rq := by
    have := free_chain_pop env rq _ wqe hwf hw hposted.2
    unfold free_list at this ⊢
    rw [hwq]
    exact this
  have hlenw : rq1.wq.wqes.length = rq.wq.wqes.length := by rw [hwq]; simp
  have hlenm : rq1.mbuf.length = rq.mbuf.length := by rw [hmbuf]; simp
  obtain ⟨w1, w2, w3, w4⟩ := hwf
  refine ⟨⟨by rw [hlenw, hlenm, w1], by rw [hlenw]; exact w2, ?_, ?_⟩, ?_⟩
  · rw [hfl]
    exact List.nodup_cons.2 ⟨hposted.2, w3⟩
  · intro i hi
    rw [hfl, List.mem_cons] at hi
    rw [hlenw]
    rcases hi with rfl | hi
    · exact hposted.1
    · exact w4 i hi
  · intro i hi
    rw [hlenm] at hi
    rw [slot_mbuf_set rq _ _ _ hclt rfl rq1 hmbuf i]
    have hsi := hs i hi
    unfold posted at hsi ⊢
    rw [hlenw, hfl]
    by_cases hic : i = be16_to_cpu env cqe.wqe_counter
    · simp [hic]
    · simp only [hic, if_false, List.mem_cons, false_or]
      exact hsi

theorem dma_maps_append (env : Env) (a b : List Event) :
    dma_maps env (a ++ b) = dma_maps env a ++ dma_maps env b := by
  simp [dma_maps]

theorem dma_unmaps_append (a b : List Event) :
    dma_unmaps (a ++ b) = dma_unmaps a ++ dma_unmaps b := by
  simp [dma_unmaps]

theorem dma_quiet (env : Env) (mid : List Event)
    (h : ∀ e ∈ mid, e.isFree = true ∨ e.isLroRx = true ∨ e.isInput = true) :
    dma_maps env mid = [] ∧ dma_unmaps mid = [] := by
  induction mid with
  | nil => exact ⟨rfl, rfl⟩
  | cons e es ih =>
    have he := h e (List.mem_cons_self _ _)
    obtain ⟨i1, i2⟩ := ih (fun e1 h1 => h e1 (List.mem_cons_of_mem _ h1))
    unfold dma_maps at i1
    unfold dma_unmaps at i2
    unfold dma_maps dma_unmaps
    cases e <;> simp [Event.isFree, Event.isLroRx, Event.isInput] at he <;>
      simp [i1, i2]

theorem iter_events_dma (env : Env) (mid : List Event) (mb : Mbuf) (c : Nat)
    (h : ∀ e ∈ mid, e.isFree = true ∨ e.isLroRx = true ∨ e.isInput = true) :
    dma_maps env
      (Event.dmaUnmap mb.dma_addr (mb.m_len + MLX5E_NET_IP_ALIGN) DmaDir.DMA_FROM_DEVICE ::
        mid ++ [Event.wqPop c]) = [] ∧
    dma_unmaps
      (Event.dmaUnmap mb.dma_addr (mb.m_len + MLX5E_NET_IP_ALIGN) DmaDir.DMA_FROM_DEVICE ::
        mid ++ [Event.wqPop c]) = [mbuf_mapping mb] := by
  obtain ⟨q1, q2⟩ := dma_quiet env mid h
  constructor
  · rw [← List.singleton_append, dma_maps_append, dma_maps_append, q1]
    simp [dma_maps]
  · rw [← List.singleton_append, dma_unmaps_append, dma_unmaps_append, q2]
    simp [dma_unmaps, mbuf_mapping]

theorem dma_inv_poll_iter (env : Env) (rq rq1 : Rq) (cqe : Cqe) (hd : DmaInv env rq)
    (h : mlx5e_poll_rx_cq_iter env rq cqe = some rq1) : DmaInv env rq1 := by
  obtain ⟨mb, wqe, hmb, hw⟩ := poll_iter_some env rq rq1 cqe h
  obtain ⟨rq2, mid, h1, _, hmbuf, _, htr, hmid, _⟩ := poll_iter_spec env rq cqe mb wqe hmb hw
  rw [h] at h1
  simp only [Option.some.injEq] at h1
  subst h1
  obtain ⟨q1, q2⟩ := dma_quiet env mid hmid
  unfold DmaInv at hd ⊢
  rw [htr, hmbuf, dma_maps_append, dma_unmaps_append]
  have hm : dma_maps env
      (Event.dmaUnmap mb.dma_addr (mb.m_len + MLX5E_NET_IP_ALIGN) DmaDir.DMA_FROM_DEVICE ::
        mid ++ [Event.wqPop (be16_to_cpu env cqe.wqe_counter)]) = [] := by
    rw [← List.singleton_append, dma_maps_append, dma_maps_append, q1]
    simp [dma_maps]
  have hu : dma_unmaps
      (Event.dmaUnmap mb.dma_addr (mb.m_len + MLX5E_NET_IP_ALIGN) DmaDir.DMA_FROM_DEVICE ::
        mid ++ [Event.wqPop (be16_to_cpu env cqe.wqe_counter)]) = [mbuf_mapping mb] := by
    rw [← List.singleton_append, dma_unmaps_append, dma_unmaps_append, q2]
    simp [dma_unmaps, mbuf_mapping]
  rw [hm, hu, List.append_nil, List.append_assoc]
  refine hd.trans (List.Perm.append_left _ ?_)
  exact in_flight_set_none rq.mbuf _ mb hmb

/-! ## The loop of `mlx5e_poll_rx_cq` -/

theorem get_cqe_none (cq : Cqwq) (h : cqe_valid cq cq.ci = false) : mlx5e_get_cqe cq = none := by
  unfold mlx5e_get_cqe
  cases cqwq_get_wqe cq cq.ci <;> simp [h]

theorem get_cqe_some (cq : Cqwq) (h : cqe_valid cq cq.ci = true) :
    ∃ cqe, cqwq_get_wqe cq cq.ci = some cqe ∧
      mlx5e_get_cqe cq = some (cqe, { cq with ci := cq.ci + 1 }) := by
  unfold mlx5e_get_cqe
  cases hg : cqwq_get_wqe cq cq.ci with
  | none => simp [cqe_valid, hg] at h
  | some cqe => exact ⟨cqe, rfl, by simp [h]⟩

theorem poll_loop_stop (env : Env) (n : Nat) (rq : Rq)
    (h : cqe_valid rq.cq rq.cq.ci = false) :
    mlx5e_poll_rx_cq_loop env (n + 1) rq = some rq := by
  simp [mlx5e_poll_rx_cq_loop, get_cqe_none rq.cq h]

/-- The invariants and the quiet trace across the loop of `mlx5e_poll_rx_cq`,
whenever it returns. -/
theorem poll_loop_inv (env : Env) (b : Nat) : ∀ (rq rq1 : Rq),
    mlx5e_poll_rx_cq_loop env b rq = some rq1 →
    (SlotInv env rq → SlotInv env rq1) ∧ (DmaInv env rq → DmaInv env rq1) ∧
    ∃ evs, rq1.trace = rq.trace ++ evs ∧ ∀ e ∈ evs, e.isDoorbell = false ∧ e ≠ Event.wmb := by
  induction b with
  | zero =>
    intro rq rq1 h
    simp only [mlx5e_poll_rx_cq_loop, Option.some.injEq] at h
    subst h
    exact ⟨id, id, [], by simp, by simp⟩
  | succ n ih =>
    intro rq rq1 h
    unfold mlx5e_poll_rx_cq_loop at h
    cases hg : mlx5e_get_cqe rq.cq with
    | none =>
      simp only [hg, Option.some.injEq] at h
      subst h
      exact ⟨id, id, [], by simp, by simp⟩
    | some r =>
      obtain ⟨cqe, cq⟩ := r
      simp only [hg] at h
      cases hi : mlx5e_poll_rx_cq_iter env
          { rq with cq := cq, trace := rq.trace ++ [Event.cqPop rq.cq.ci] } cqe with
      | none => simp [hi] at h
      | some rq2 =>
        simp only [hi] at h
        obtain ⟨i1, i2, evs, i3, i4⟩ := ih rq2 rq1 h
        obtain ⟨mb, wqe, hmb, hw⟩ := poll_iter_some env _ rq2 cqe hi
        obtain ⟨rq3, mid, h1, _, _, _, htr, hmid, _⟩ := poll_iter_spec env _ cqe mb wqe hmb hw
        rw [hi] at h1
        simp only [Option.some.injEq] at h1
        subst h1
        refine ⟨fun hs => i1 (slot_inv_poll_iter env
          { rq with cq := cq, trace := rq.trace ++ [Event.cqPop rq.cq.ci] } rq2 cqe hs hi), ?_, ?_⟩
        · intro hd
          refine i2 (dma_inv_poll_iter env _ rq2 cqe ?_ hi)
          unfold DmaInv at hd ⊢
          simpa [dma_maps, dma_unmaps] using hd
        · refine ⟨_, by rw [i3, htr]; simp only [List.append_assoc]; rfl, ?_⟩
          intro e he
          simp only [List.cons_append, List.nil_append, List.mem_cons, List.mem_append,
            List.mem_singleton, List.append_assoc] at he
          rcases he with rfl | rfl | he | rfl | he
          · simp [Event.isDoorbell]
          · simp [Event.isDoorbell]
          · have := hmid e he
            cases e <;> simp [Event.isFree, Event.isLroRx, Event.isInput] at this <;>
              simp [Event.isDoorbell]
          · simp [Event.isDoorbell]
          · exact i4 e he

theorem poll_loop_step (env : Env) (n : Nat) (rq : Rq)
    (h : cqe_valid rq.cq rq.cq.ci = true) :
    ∃ cqe, cqwq_get_wqe rq.cq rq.cq.ci = some cqe ∧
      mlx5e_poll_rx_cq_loop env (n + 1) rq =
        (mlx5e_poll_rx_cq_iter env
          { rq with cq := { rq.cq with ci := rq.cq.ci + 1 },
                    trace := rq.trace ++ [Event.cqPop rq.cq.ci] } cqe).bind
          (mlx5e_poll_rx_cq_loop env n) := by
  obtain ⟨cqe, h1, h2⟩ := get_cqe_some rq.cq h
  refine ⟨cqe, h1, ?_⟩
  rw [mlx5e_poll_rx_cq_loop]
  simp only [h2]
  cases mlx5e_poll_rx_cq_iter env
    { rq with cq := { rq.cq with ci := rq.cq.ci + 1 },
              trace := rq.trace ++ [Event.cqPop rq.cq.ci] } cqe <;> rfl

theorem bind_isSome {α β : Type} (o : Option α) (f : α → Option β)
    (h : (o.bind f).isSome = true) : ∃ a b, o = some a ∧ f a = some b := by
  cases o with
  | none => simp at h
  | some a =>
    simp only [Option.some_bind] at h
    obtain ⟨b, hb⟩ := Option.isSome_iff_exists.1 h
    exact ⟨a, b, rfl, hb⟩

theorem slot_mbuf_some (rq : Rq) (c : Nat) (mb : Mbuf) (h : slot_mbuf rq c = some mb) :
    rq.mbuf[c]? = some (some mb) := by
  unfold slot_mbuf at h
  split at h
  · simp only [Option.some.injEq] at h
    subst h
    assumption
  · simp at h

theorem quiet_pops (mid : List Event)
    (h : ∀ e ∈ mid, e.isFree = true ∨ e.isLroRx = true ∨ e.isInput = true) :
    mid.filterMap Event.popCi = [] ∧ mid.filterMap Event.popSlot = [] := by
  induction mid with
  | nil => exact ⟨rfl, rfl⟩
  | cons e es ih =>
    have he := h e (List.mem_cons_self _ _)
    obtain ⟨i1, i2⟩ := ih (fun e1 h1 => h e1 (List.mem_cons_of_mem _ h1))
    cases e <;> simp [Event.isFree, Event.isLroRx, Event.isInput] at he <;>
      simp [i1, i2, Event.popCi, Event.popSlot]

/-- The loop of `mlx5e_poll_rx_cq` when the next `m` records are valid and name
posted slots, and either the budget is `m` or record `m` is not valid. -/
theorem poll_loop_spec (env : Env) (m : Nat) : ∀ (b : Nat) (rq : Rq), m ≤ b →
    rq.mbuf.length = rq.wq.wqes.length →
    (∀ j < m, cqe_valid rq.cq (rq.cq.ci + j) = true) →
    (m = b ∨ cqe_valid rq.cq (rq.cq.ci + m) = false) →
    CompletionsPosted env rq m →
    ∃ rq1, mlx5e_poll_rx_cq_loop env b rq = some rq1 ∧
      rq1.cq = { rq.cq with ci := rq.cq.ci + m } ∧
      rq1.wq.free_cnt = rq.wq.free_cnt + m ∧
      (rq1.stats.packets + rq1.stats.wqe_err = rq.stats.packets + rq.stats.wqe_err + m ∧
        rq.stats.packets ≤ rq1.stats.packets ∧ rq.stats.wqe_err ≤ rq1.stats.wqe_err) ∧
      ∃ evs, rq1.trace = rq.trace ++ evs ∧
        evs.filterMap Event.popCi = (List.range m).map (fun j => rq.cq.ci + j) ∧
        evs.filterMap Event.popSlot =
          (List.range m).filterMap (fun j => cq_slot env rq.cq (rq.cq.ci + j)) ∧
        dma_unmaps evs = (List.range m).filterMap (fun j =>
          ((cq_slot env rq.cq (rq.cq.ci + j)).bind (slot_mbuf rq)).map mbuf_mapping) ∧
        dma_maps env evs = [] ∧
        (∀ i, slot_mbuf rq i = none → slot_mbuf rq1 i = none) ∧
        (∀ j < m, (cq_slot env rq.cq (rq.cq.ci + j)).bind (slot_mbuf rq1) = none) := by
  induction m with
  | zero =>
    intro b rq _ _ _ hstop _
    cases b with
    | zero =>
      exact ⟨rq, rfl, rfl, rfl, ⟨rfl, le_refl _, le_refl _⟩, [], by simp, rfl, rfl, rfl, rfl,
        fun _ h => h, fun j hj => absurd hj (Nat.not_lt_zero j)⟩
    | succ n =>
      have hv : cqe_valid rq.cq rq.cq.ci = false := by
        rcases hstop with h | h
        · omega
        · simpa using h
      exact ⟨rq, poll_loop_stop env n rq hv, rfl, rfl, ⟨rfl, le_refl _, le_refl _⟩, [],
        by simp, rfl, rfl, rfl, rfl, fun _ h => h, fun j hj => absurd hj (Nat.not_lt_zero j)⟩
  | succ m ih =>
    intro b rq hb hlen hvalid hstop hposted
    obtain ⟨n, rfl⟩ := Nat.exists_eq_succ_of_ne_zero (by omega : b ≠ 0)
    have hv0 : cqe_valid rq.cq rq.cq.ci = true := by simpa using hvalid 0 (by omega)
    obtain ⟨cqe, hget, hloop⟩ := poll_loop_step env n rq hv0
    have hslot : cq_slot env rq.cq rq.cq.ci = some (be16_to_cpu env cqe.wqe_counter) := by
      simp [cq_slot, hget]
    obtain ⟨c, mb, hc, hmb⟩ := bind_isSome _ _ (hposted.1 0 (by omega))
    simp only [Nat.add_zero, hslot, Option.some.injEq] at hc
    subst hc
    have hmb1 := slot_mbuf_some rq _ mb hmb
    have hclt : be16_to_cpu env cqe.wqe_counter < rq.mbuf.length :=
      (List.getElem?_eq_some.1 hmb1).1
    have hclw : be16_to_cpu env cqe.wqe_counter < rq.wq.wqes.length := by omega
    have hw : rq.wq.wqes[be16_to_cpu env cqe.wqe_counter]? =
        some (rq.wq.wqes[be16_to_cpu env cqe.wqe_counter]) :=
      List.getElem?_eq_getElem hclw
    obtain ⟨rq2, mid, h1, hcq, hmbuf, hwq, htr, hmid, hstats⟩ := poll_iter_spec env
      { rq with cq := { rq.cq with ci := rq.cq.ci + 1 },
                trace := rq.trace ++ [Event.cqPop rq.cq.ci] } cqe mb _ hmb1 hw
    rw [h1, Option.some_bind] at hloop
    have hci : rq2.cq.ci = rq.cq.ci + 1 := by rw [hcq]
    have hent : ∀ i, cqe_valid rq2.cq i = cqe_valid rq.cq i := by
      intro i; rw [hcq]; rfl
    have hsl : ∀ i, cq_slot env rq2.cq i = cq_slot env rq.cq i := by
      intro i; rw [hcq]; rfl
    have hidx : ∀ j, rq.cq.ci + 1 + j = rq.cq.ci + (j + 1) := fun j => by omega
    have hkeep : ∀ j < m, (cq_slot env rq2.cq (rq2.cq.ci + j)).bind (slot_mbuf rq2) =
        (cq_slot env rq.cq (rq.cq.ci + (j + 1))).bind (slot_mbuf rq) := by
      intro j hj
      rw [hsl, hci, hidx]
      cases hc1 : cq_slot env rq.cq (rq.cq.ci + (j + 1)) with
      | none => rfl
      | some c1 =>
        have hne : c1 ≠ be16_to_cpu env cqe.wqe_counter := by
          intro heq
          have := hposted.2 (j + 1) (by omega) 0 (by omega)
          rw [Nat.add_zero, hslot, hc1, heq] at this
          exact this rfl
        rw [Option.some_bind, Option.some_bind,
          slot_mbuf_set rq _ _ _ hclt rfl rq2 hmbuf c1]
        simp [hne]
    have hset : ∀ i, slot_mbuf rq2 i =
        if i = be16_to_cpu env cqe.wqe_counter then none else slot_mbuf rq i :=
      fun i => slot_mbuf_set rq _ _ _ hclt rfl rq2 hmbuf i
    obtain ⟨rq1, g0, g1, g2, g3, evs, g4, g5, g6, g7, g8, g9, g10⟩ := ih n rq2 (by omega)
      (by rw [hmbuf, hwq]; simp [hlen])
      (fun j hj => by rw [hent, hci, hidx]; exact hvalid (j + 1) (by omega))
      (by
        rcases hstop with h | h
        · left; omega
        · right; rw [hent, hci, hidx]; exact h)
      (by
        refine ⟨fun j hj => ?_, fun k hk j hj => ?_⟩
        · rw [hsl, hci, hidx]
          obtain ⟨c1, mb1, hc1, hmb2⟩ := bind_isSome _ _ (hposted.1 (j + 1) (by omega))
          have hne : c1 ≠ be16_to_cpu env cqe.wqe_counter := by
            intro heq
            have := hposted.2 (j + 1) (by omega) 0 (by omega)
            rw [Nat.add_zero, hslot, hc1, heq] at this
            exact this rfl
          rw [hc1, Option.some_bind, slot_mbuf_set rq _ _ _ hclt rfl rq2 hmbuf c1]
          simp [hne, hmb2]
        · rw [hsl, hsl, hci, hidx, hidx]
          exact hposted.2 (k + 1) (by omega) (j + 1) (by omega))
    refine ⟨rq1, hloop.trans g0, ?_, ?_, ?_, ?_⟩
    · rw [g1, hcq]
      simp only [Cqwq.mk.injEq, and_true, true_and]
      omega
    · rw [g2, hwq]
      simp only
      omega
    · simp only at hstats
      omega
    · obtain ⟨q1, q2⟩ := quiet_pops mid hmid
      have e0 := iter_events_dma env mid mb (be16_to_cpu env cqe.wqe_counter) hmid
      refine ⟨[Event.cqPop rq.cq.ci] ++
          ((Event.dmaUnmap mb.dma_addr (mb.m_len + MLX5E_NET_IP_ALIGN)
              DmaDir.DMA_FROM_DEVICE :: mid ++
            [Event.wqPop (be16_to_cpu env cqe.wqe_counter)]) ++ evs),
        by rw [g4, htr]; simp only [List.append_assoc], ?_, ?_, ?_, ?_, ?_, ?_⟩
      · simp only [List.singleton_append, List.cons_append, List.filterMap_cons,
          List.filterMap_append, Event.popCi, q1, g5, List.nil_append, List.filterMap_nil,
          List.range_succ_eq_map, List.map_cons, List.map_map, Nat.add_zero, hci]
        congr 1
        exact List.map_congr_left (fun j _ => by simp only [Function.comp]; omega)
      · simp only [List.singleton_append, List.cons_append, List.filterMap_cons,
          List.filterMap_append, Event.popSlot, q2, g6, List.nil_append, List.filterMap_nil,
          List.range_succ_eq_map, Nat.add_zero, hslot, hci, List.filterMap_map]
        congr 1
        refine List.filterMap_congr (fun j _ => ?_)
        simp only [Function.comp, hsl, hidx]
      · have e1 : dma_unmaps ([Event.cqPop rq.cq.ci] ++
            ((Event.dmaUnmap mb.dma_addr (mb.m_len + MLX5E_NET_IP_ALIGN)
                DmaDir.DMA_FROM_DEVICE :: mid ++
              [Event.wqPop (be16_to_cpu env cqe.wqe_counter)]) ++ evs)) =
            mbuf_mapping mb :: dma_unmaps evs := by
          rw [dma_unmaps_append, dma_unmaps_append, e0.2]
          simp [dma_unmaps]
        rw [e1, g7, List.range_succ_eq_map, List.filterMap_cons, List.filterMap_map]
        simp only [Nat.add_zero, hslot, Option.some_bind, hmb, Option.map_some']
        congr 1
        refine List.filterMap_congr (fun j hj => ?_)
        simp only [Function.comp]
        rw [hkeep j (List.mem_range.1 hj)]
      · rw [dma_maps_append, dma_maps_append, e0.1, g8]
        simp [dma_maps]
      · intro i hi
        refine g9 i ?_
        rw [hset i, hi]
        simp
      · intro j hj
        cases j with
        | zero =>
          rw [Nat.add_zero, hslot, Option.some_bind]
          refine g9 _ ?_
          rw [hset]
          simp
        | succ j =>
          have := g10 j (by omega)
          rwa [hsl, hci, hidx] at this

/-! ## `mlx5e_poll_rx_cq` -/

/-- The invariants across `mlx5e_poll_rx_cq`, whenever it returns, and the
shape of its trace: the loop, then the consumer doorbell, the fence, and the
LRO flushes. -/
theorem poll_rx_cq_inv (env : Env) (rq rq1 : Rq) (budget : Int)
    (h : mlx5e_poll_rx_cq env rq budget = some rq1) :
    (SlotInv env rq → SlotInv env rq1) ∧ (DmaInv env rq → DmaInv env rq1) ∧
    ∃ pre fl, rq1.trace = rq.trace ++ (pre ++ [Event.cqDoorbell rq1.cq.ci, Event.wmb] ++ fl) ∧
      (∀ e ∈ pre, e.isDoorbell = false ∧ e ≠ Event.wmb) ∧
      (∀ e ∈ fl, ∃ x, e = Event.lroFlush x) := by
  unfold mlx5e_poll_rx_cq at h
  cases hl : mlx5e_poll_rx_cq_loop env budget.toNat rq with
  | none => simp [hl] at h
  | some rq2 =>
    simp only [hl, Option.some.injEq] at h
    obtain ⟨i1, i2, evs, i3, i4⟩ := poll_loop_inv env _ rq rq2 hl
    subst h
    refine ⟨fun hs => i1 hs, ?_, evs, rq2.lro.lro_active.map Event.lroFlush, ?_, i4, ?_⟩
    · intro hd
      have := i2 hd
      unfold DmaInv at this ⊢
      have hq : dma_maps env (rq2.lro.lro_active.map Event.lroFlush) = [] ∧
          dma_unmaps (rq2.lro.lro_active.map Event.lroFlush) = [] := by
        generalize rq2.lro.lro_active = l
        induction l with
        | nil => exact ⟨rfl, rfl⟩
        | cons x xs ih =>
          obtain ⟨a1, a2⟩ := ih
          unfold dma_maps at a1 ⊢
          unfold dma_unmaps at a2 ⊢
          simp [a1, a2]
      simp only [dma_maps_append, dma_unmaps_append, hq.1, hq.2, List.append_nil]
      simpa [dma_maps, dma_unmaps] using this
    · simp [i3, mlx5_cqwq_update_db_record]
    · intro e he
      obtain ⟨x, _, hx⟩ := List.mem_map.1 he
      exact ⟨x, hx.symm⟩

theorem toNat_max_zero (budget : Int) : (max budget 0).toNat = budget.toNat := by
  omega

/-- One call of `mlx5e_poll_rx_cq` when the queue holds `a` valid completions and
the ones within the budget name posted slots: it returns, having consumed
`min budget.toNat a` completions in queue order. -/
theorem poll_rx_cq_spec (env : Env) (rq : Rq) (budget : Int) (a : Nat)
    (hlen : rq.mbuf.length = rq.wq.wqes.length)
    (hcq : CqHolds rq.cq a)
    (hposted : CompletionsPosted env rq (min budget.toNat a)) :
    ∃ rq1, mlx5e_poll_rx_cq env rq budget = some rq1 ∧
      rq1.cq.ci = rq.cq.ci + min budget.toNat a ∧
      (new_events rq rq1).filterMap Event.popCi =
        (List.range (min budget.toNat a)).map (fun j => rq.cq.ci + j) ∧
      (new_events rq rq1).filterMap Event.popSlot =
        (List.range (min budget.toNat a)).filterMap
          (fun j => cq_slot env rq.cq (rq.cq.ci + j)) ∧
      rq1.wq.free_cnt = rq.wq.free_cnt + min budget.toNat a ∧
      rq.stats.packets ≤ rq1.stats.packets ∧ rq.stats.wqe_err ≤ rq1.stats.wqe_err ∧
      (rq1.stats.packets - rq.stats.packets) + (rq1.stats.wqe_err - rq.stats.wqe_err) =
        min budget.toNat a := by
  obtain ⟨hv, hstop⟩ := hcq
  obtain ⟨rq2, h0, h1, h2, ⟨h3, h4, h5⟩, evs, h6, h7, h8, _⟩ :=
    poll_loop_spec env (min budget.toNat a) budget.toNat rq (by omega) hlen
      (fun j hj => hv j (by omega))
      (by
        by_cases hba : budget.toNat ≤ a
        · left; omega
        · right; rw [Nat.min_eq_right (by omega)]; exact hstop)
      hposted
  have hfl : ∀ l : List Nat, (l.map Event.lroFlush).filterMap Event.popCi = [] ∧
      (l.map Event.lroFlush).filterMap Event.popSlot = [] := by
    intro l
    induction l with
    | nil => exact ⟨rfl, rfl⟩
    | cons x xs ih => simp [Event.popCi, Event.popSlot, ih.1, ih.2]
  refine ⟨{ rq2 with
      cq := mlx5_cqwq_update_db_record rq2.cq,
      lro := { rq2.lro with lro_active := [] },
      trace := rq2.trace ++ [Event.cqDoorbell rq2.cq.ci, Event.wmb]
        ++ rq2.lro.lro_active.map Event.lroFlush },
    by simp only [mlx5e_poll_rx_cq, h0], ?_⟩
  have hev : new_events rq { rq2 with
      cq := mlx5_cqwq_update_db_record rq2.cq,
      lro := { rq2.lro with lro_active := [] },
      trace := rq2.trace ++ [Event.cqDoorbell rq2.cq.ci, Event.wmb]
        ++ rq2.lro.lro_active.map Event.lroFlush } =
      evs ++ ([Event.cqDoorbell rq2.cq.ci, Event.wmb]
        ++ rq2.lro.lro_active.map Event.lroFlush) :=
    new_events_eq _ _ _ (by simp [h6])
  rw [hev]
  refine ⟨?_, ?_, ?_, ?_, ?_, ?_, ?_⟩
  · simp [mlx5_cqwq_update_db_record, h1]
  · simp [List.filterMap_append, h7, (hfl _).1, Event.popCi]
  · simp [List.filterMap_append, h8, (hfl _).2, Event.popSlot]
  · exact h2
  · exact h4
  · exact h5
  · simp only
    omega

/-- C9: for every budget and every completion queue holding `a` valid
completions that name distinct slots holding packets (on a queue whose slot
table and descriptor array have the same size), `mlx5e_poll_rx_cq` returns and
consumes exactly `min (max budget 0) a` completions: the consumer index advances
by that number, the consumed indices are `ci, ci + 1, ...` in this order, the
slots popped back onto the free list are the slots these records name, in the
same order, the free list grows by that number, and the increments of `packets`
and `wqe_err` add up to that number. -/
theorem poll_rx_cq_consumes (env : Env) (rq : Rq) (budget : Int) (a : Nat)
    (hlen : rq.mbuf.length = rq.wq.wqes.length)
    (hcq : CqHolds rq.cq a)
    (hposted : CompletionsPosted env rq (min (max budget 0).toNat a)) :
    ∃ rq1, mlx5e_poll_rx_cq env rq budget = some rq1 ∧
      rq1.cq.ci = rq.cq.ci + min (max budget 0).toNat a ∧
      (new_events rq rq1).filterMap Event.popCi =
        (List.range (min (max budget 0).toNat a)).map (fun j => rq.cq.ci + j) ∧
      (new_events rq rq1).filterMap Event.popSlot =
        (List.range (min (max budget 0).toNat a)).filterMap
          (fun j => cq_slot env rq.cq (rq.cq.ci + j)) ∧
      rq1.wq.free_cnt = rq.wq.free_cnt + min (max budget 0).toNat a ∧
      rq.stats.packets ≤ rq1.stats.packets ∧ rq.stats.wqe_err ≤ rq1.stats.wqe_err ∧
      (rq1.stats.packets - rq.stats.packets) + (rq1.stats.wqe_err - rq.stats.wqe_err) =
        min (max budget 0).toNat a := by
  rw [toNat_max_zero] at hposted ⊢
  exact poll_rx_cq_spec env rq budget a hlen hcq hposted

/-- Witness for C9: budget 1 on the sample queue with two pending completions. -/
theorem poll_rx_cq_consumes_witness :
    ∃ rq1, mlx5e_poll_rx_cq (env_sample 2 true) rq_pending 1 = some rq1 ∧
      rq1.cq.ci = rq_pending.cq.ci + min (max (1 : Int) 0).toNat 2 ∧
      (new_events rq_pending rq1).filterMap Event.popCi =
        (List.range (min (max (1 : Int) 0).toNat 2)).map (fun j => rq_pending.cq.ci + j) ∧
      (new_events rq_pending rq1).filterMap Event.popSlot =
        (List.range (min (max (1 : Int) 0).toNat 2)).filterMap
          (fun j => cq_slot (env_sample 2 true) rq_pending.cq (rq_pending.cq.ci + j)) ∧
      rq1.wq.free_cnt = rq_pending.wq.free_cnt + min (max (1 : Int) 0).toNat 2 ∧
      rq_pending.stats.packets ≤ rq1.stats.packets ∧
      rq_pending.stats.wqe_err ≤ rq1.stats.wqe_err ∧
      (rq1.stats.packets - rq_pending.stats.packets) +
        (rq1.stats.wqe_err - rq_pending.stats.wqe_err) = min (max (1 : Int) 0).toNat 2 :=
  poll_rx_cq_consumes (env_sample 2 true) rq_pending 1 2 (by decide) (by decide) (by decide)

/-- C5: from a state that satisfies the slot-table invariant `SlotInv` (slot `i`
holds a packet iff descriptor `i` is posted, on a well-formed work queue),
`mlx5e_post_rx_wqes` returns a state that satisfies it, whatever the pool and
the DMA layer do; and when the `a` valid completions within the budget name
distinct slots that hold packets, `mlx5e_poll_rx_cq` returns a state that
satisfies it, whatever the opcodes of the completions are. -/
theorem slot_invariant_preserved (env : Env) (rq : Rq) (budget : Int) (a : Nat)
    (hinv : SlotInv env rq)
    (hcq : CqHolds rq.cq a)
    (hposted : CompletionsPosted env rq (min (max budget 0).toNat a)) :
    (∃ rq1, mlx5e_post_rx_wqes env rq = some rq1 ∧ SlotInv env rq1) ∧
    (∃ rq1, mlx5e_poll_rx_cq env rq budget = some rq1 ∧ SlotInv env rq1) := by
  constructor
  · obtain ⟨rq1, h1, h2, _⟩ := post_rx_wqes_inv env rq hinv
    exact ⟨rq1, h1, h2⟩
  · rw [toNat_max_zero] at hposted
    obtain ⟨rq1, h1, _⟩ := poll_rx_cq_spec env rq budget a hinv.1.1 hcq hposted
    exact ⟨rq1, h1, (poll_rx_cq_inv env rq rq1 budget h1).1 hinv⟩

/-- Witness for C5: the sample queue with two pending completions, one of them an
error completion, and a DMA layer that fails. -/
theorem slot_invariant_preserved_witness :
    (∃ rq1, mlx5e_post_rx_wqes (env_sample 5 false) rq_pending = some rq1 ∧
      SlotInv (env_sample 5 false) rq1) ∧
    (∃ rq1, mlx5e_poll_rx_cq (env_sample 5 false) rq_pending 4096 = some rq1 ∧
      SlotInv (env_sample 5 false) rq1) :=
  slot_invariant_preserved (env_sample 5 false) rq_pending 4096 2 (by decide) (by decide)
    (by decide)

theorem filterMap_length_of_isSome {α β : Type} (f : α → Option β) (l : List α)
    (h : ∀ x ∈ l, (f x).isSome = true) : (l.filterMap f).length = l.length := by
  induction l with
  | nil => rfl
  | cons x xs ih =>
    obtain ⟨y, hy⟩ := Option.isSome_iff_exists.1 (h x (List.mem_cons_self _ _))
    rw [List.filterMap_cons_some hy]
    simp [ih (fun z hz => h z (List.mem_cons_of_mem _ hz))]

/-- The DMA unmaps of one call of `mlx5e_poll_rx_cq`: one for each completion
consumed, in queue order, with the bus address and length of the packet in the
slot the completion names; no map; the slots of the consumed completions are
empty afterwards. -/
theorem poll_rx_cq_unmaps (env : Env) (rq : Rq) (budget : Int) (a : Nat)
    (hlen : rq.mbuf.length = rq.wq.wqes.length)
    (hcq : CqHolds rq.cq a)
    (hposted : CompletionsPosted env rq (min budget.toNat a)) :
    ∃ rq1, mlx5e_poll_rx_cq env rq budget = some rq1 ∧
      dma_unmaps (new_events rq rq1) =
        (List.range (min budget.toNat a)).filterMap (fun j =>
          ((cq_slot env rq.cq (rq.cq.ci + j)).bind (slot_mbuf rq)).map mbuf_mapping) ∧
      (dma_unmaps (new_events rq rq1)).length = min budget.toNat a ∧
      dma_maps env (new_events rq rq1) = [] ∧
      (∀ j < min budget.toNat a,
        (cq_slot env rq.cq (rq.cq.ci + j)).bind (slot_mbuf rq1) = none) := by
  obtain ⟨hv, hstop⟩ := hcq
  obtain ⟨rq2, h0, _, _, _, evs, h6, _, _, h9, h10, _, h12⟩ :=
    poll_loop_spec env (min budget.toNat a) budget.toNat rq (by omega) hlen
      (fun j hj => hv j (by omega))
      (by
        by_cases hba : budget.toNat ≤ a
        · left; omega
        · right; rw [Nat.min_eq_right (by omega)]; exact hstop)
      hposted
  have hfl : ∀ l : List Nat, dma_maps env (l.map Event.lroFlush) = [] ∧
      dma_unmaps (l.map Event.lroFlush) = [] := by
    intro l
    induction l with
    | nil => exact ⟨rfl, rfl⟩
    | cons x xs ih =>
      obtain ⟨a1, a2⟩ := ih
      unfold dma_maps at a1 ⊢
      unfold dma_unmaps at a2 ⊢
      simp [a1, a2]
  refine ⟨{ rq2 with
      cq := mlx5_cqwq_update_db_record rq2.cq,
      lro := { rq2.lro with lro_active := [] },
      trace := rq2.trace ++ [Event.cqDoorbell rq2.cq.ci, Event.wmb]
        ++ rq2.lro.lro_active.map Event.lroFlush },
    by simp only [mlx5e_poll_rx_cq, h0], ?_⟩
  have hev : new_events rq { rq2 with
      cq := mlx5_cqwq_update_db_record rq2.cq,
      lro := { rq2.lro with lro_active := [] },
      trace := rq2.trace ++ [Event.cqDoorbell rq2.cq.ci, Event.wmb]
        ++ rq2.lro.lro_active.map Event.lroFlush } =
      evs ++ ([Event.cqDoorbell rq2.cq.ci, Event.wmb]
        ++ rq2.lro.lro_active.map Event.lroFlush) :=
    new_events_eq _ _ _ (by simp [h6])
  have hu : dma_unmaps (evs ++ ([Event.cqDoorbell rq2.cq.ci, Event.wmb]
        ++ rq2.lro.lro_active.map Event.lroFlush)) = dma_unmaps evs := by
    rw [dma_unmaps_append, dma_unmaps_append, (hfl _).2]
    simp [dma_unmaps]
  have hm : dma_maps env (evs ++ ([Event.cqDoorbell rq2.cq.ci, Event.wmb]
        ++ rq2.lro.lro_active.map Event.lroFlush)) = dma_maps env evs := by
    rw [dma_maps_append, dma_maps_append, (hfl _).1]
    simp [dma_maps]
  rw [hev, hu, hm]
  refine ⟨h9, ?_, h10, ?_⟩
  · rw [h9, filterMap_length_of_isSome, List.length_range]
    intro j hj
    obtain ⟨c, mb, hc, hmb⟩ := bind_isSome _ _ (hposted.1 j (List.mem_range.1 hj))
    simp [hc, hmb]
  · intro j hj
    exact h12 j hj

/-- The invariants along a sequence of cycles. -/
theorem run_cycles_inv (env : Env) (cycles : List Cycle) (rq rq1 : Rq)
    (hs : SlotInv env rq) (hd : DmaInv env rq)
    (hrun : run_cycles env cycles rq = some rq1) :
    DmaInv env rq1 ∧ SlotInv env rq1 := by
  induction cycles generalizing rq with
  | nil =>
    simp only [run_cycles, Option.some.injEq] at hrun
    subst hrun
    exact ⟨hd, hs⟩
  | cons c cs ih =>
    cases c with
    | post =>
      obtain ⟨rq2, h1, h2, h3⟩ := post_rx_wqes_inv env rq hs
      simp only [run_cycles, h1] at hrun
      exact ih rq2 h2 (h3 hd) hrun
    | poll budget =>
      cases hp : mlx5e_poll_rx_cq env rq budget with
      | none => simp [run_cycles, hp] at hrun
      | some rq2 =>
        simp only [run_cycles, hp] at hrun
        obtain ⟨i1, i2, _⟩ := poll_rx_cq_inv env rq rq2 budget hp
        exact ih rq2 (i1 hs) (i2 hd) hrun
    | device entries =>
      simp only [run_cycles] at hrun
      exact ih { rq with cq := { rq.cq with entries := entries } } hs hd hrun

theorem dma_inv_count (env : Env) (rq : Rq) (hd : DmaInv env rq) (p : Nat × Nat) :
    (dma_maps env rq.trace).count p =
      (dma_unmaps rq.trace).count p + (in_flight rq.mbuf).count p := by
  rw [← List.count_append]
  exact List.Perm.countP_eq _ hd

/-- C4: let `rq1` be any state reached by a sequence of post and poll cycles (the
device writing completions in between) from a state satisfying the slot-table
invariant and the pairing invariant `DmaInv`.  Then `DmaInv` holds in `rq1`: the
pairs (bus address returned, length passed) of the successful DMA maps are,
with multiplicity, the pairs (bus address, length) of the unmaps together with
those of the packets still in the slot table.  And a call of `mlx5e_poll_rx_cq`
in `rq1`, when the completions within the budget name distinct slots holding
packets, returns and issues exactly one unmap for each completion it consumes,
in queue order, with the stored bus address and the length of the packet in the
named slot, and no map; the named slots are empty afterwards and `DmaInv` holds
again, so each unmap is matched by a successful map of its own with the same
bus address and length, a completed packet is not unmapped a second time, and
a failed mapping, which is not among the successful maps, is never unmapped. -/
theorem dma_map_unmap_paired (env : Env) (cycles : List Cycle) (rq rq1 : Rq)
    (budget : Int) (a : Nat)
    (hs : SlotInv env rq) (hd : DmaInv env rq)
    (hrun : run_cycles env cycles rq = some rq1)
    (hcq : CqHolds rq1.cq a)
    (hposted : CompletionsPosted env rq1 (min (max budget 0).toNat a)) :
    DmaInv env rq1 ∧ SlotInv env rq1 ∧
    (∀ p, (dma_maps env rq1.trace).count p =
      (dma_unmaps rq1.trace).count p + (in_flight rq1.mbuf).count p) ∧
    ∃ rq2, mlx5e_poll_rx_cq env rq1 budget = some rq2 ∧
      dma_unmaps (new_events rq1 rq2) =
        (List.range (min (max budget 0).toNat a)).filterMap (fun j =>
          ((cq_slot env rq1.cq (rq1.cq.ci + j)).bind (slot_mbuf rq1)).map mbuf_mapping) ∧
      (dma_unmaps (new_events rq1 rq2)).length = min (max budget 0).toNat a ∧
      dma_maps env (new_events rq1 rq2) = [] ∧
      (∀ j < min (max budget 0).toNat a,
        (cq_slot env rq1.cq (rq1.cq.ci + j)).bind (slot_mbuf rq2) = none) ∧
      DmaInv env rq2 ∧ SlotInv env rq2 ∧
      (∀ p, (dma_maps env rq2.trace).count p =
        (dma_unmaps rq2.trace).count p + (in_flight rq2.mbuf).count p) := by
  obtain ⟨hd1, hs1⟩ := run_cycles_inv env cycles rq rq1 hs hd hrun
  rw [toNat_max_zero] at hposted ⊢
  obtain ⟨rq2, h0, h1, h2, h3, h4⟩ := poll_rx_cq_unmaps env rq1 budget a hs1.1.1 hcq hposted
  obtain ⟨i1, i2, _⟩ := poll_rx_cq_inv env rq1 rq2 budget h0
  exact ⟨hd1, hs1, dma_inv_count env rq1 hd1, rq2, h0, h1, h2, h3, h4, i2 hd1, i1 hs1,
    dma_inv_count env rq2 (i2 hd1)⟩

/-- Witness for C4: a post whose second mapping fails, a completion, a poll, a
second post, an error completion for slot 1; the poll that follows unmaps the
packet of slot 1 once. -/
theorem dma_map_unmap_paired_witness :
    ∃ rq1, run_cycles (env_map_fails_at 4 1)
        [Cycle.post, Cycle.device rq_pending.cq.entries, Cycle.poll 1, Cycle.post,
         Cycle.device [cqe_sample 1 0x20 7, cqe_sample 1 0x30 0,
                       cqe_sample 0 0x21 7, cqe_sample 0 0xf1 0]]
        rq_sample = some rq1 ∧
      DmaInv (env_map_fails_at 4 1) rq1 ∧ SlotInv (env_map_fails_at 4 1) rq1 ∧
      (∀ p, (dma_maps (env_map_fails_at 4 1) rq1.trace).count p =
        (dma_unmaps rq1.trace).count p + (in_flight rq1.mbuf).count p) ∧
      ∃ rq2, mlx5e_poll_rx_cq (env_map_fails_at 4 1) rq1 4096 = some rq2 ∧
        dma_unmaps (new_events rq1 rq2) =
          (List.range (min (max (4096 : Int) 0).toNat 1)).filterMap (fun j =>
            ((cq_slot (env_map_fails_at 4 1) rq1.cq (rq1.cq.ci + j)).bind
              (slot_mbuf rq1)).map mbuf_mapping) ∧
        (dma_unmaps (new_events rq1 rq2)).length = min (max (4096 : Int) 0).toNat 1 ∧
        dma_maps (env_map_fails_at 4 1) (new_events rq1 rq2) = [] ∧
        (∀ j < min (max (4096 : Int) 0).toNat 1,
          (cq_slot (env_map_fails_at 4 1) rq1.cq (rq1.cq.ci + j)).bind (slot_mbuf rq2) = none) ∧
        DmaInv (env_map_fails_at 4 1) rq2 ∧ SlotInv (env_map_fails_at 4 1) rq2 ∧
        (∀ p, (dma_maps (env_map_fails_at 4 1) rq2.trace).count p =
          (dma_unmaps rq2.trace).count p + (in_flight rq2.mbuf).count p) :=
  ⟨_, rfl, dma_map_unmap_paired (env_map_fails_at 4 1)
    [Cycle.post, Cycle.device rq_pending.cq.entries, Cycle.poll 1, Cycle.post,
     Cycle.device [cqe_sample 1 0x20 7, cqe_sample 1 0x30 0,
                   cqe_sample 0 0x21 7, cqe_sample 0 0xf1 0]]
    rq_sample _ 4096 1 (by decide) (by decide) rfl (by decide) (by decide)⟩

/-- Counterexample for C7: polling the sample queue with two pending
completions appends the events listed; the consumer doorbell store comes before
the only fence, so the doorbell discipline fails on this trace. -/
theorem poll_rx_cq_doorbell_unfenced :
    ∃ rq1, mlx5e_poll_rx_cq (env_sample 2 true) rq_pending 4096 = some rq1 ∧
      new_events rq_pending rq1 =
        [Event.cqPop 0,
         Event.dmaUnmap 65536 2048 DmaDir.DMA_FROM_DEVICE,
         Event.lroRx (mlx5e_build_rx_mbuf (env_sample 2 true) (cqe_sample 0 0x20 7) rq_pending
           (mbuf_posted 0)).1 0,
         Event.wqPop 0,
         Event.cqPop 1,
         Event.dmaUnmap 131072 2048 DmaDir.DMA_FROM_DEVICE,
         Event.mFree (mbuf_posted 1),
         Event.wqPop 1,
         Event.cqDoorbell 2,
         Event.wmb] ∧
      doorbells_fenced false (new_events rq_pending rq1) = false := by
  refine ⟨_, rfl, ?_, ?_⟩ <;> decide

/-- C7, as amended: in every trace of `mlx5e_post_rx_wqes` the posted-buffer
doorbell store is preceded by a fence that comes after the last descriptor
change; in every trace of `mlx5e_poll_rx_cq` the consumer doorbell store is the
only doorbell store, no fence precedes it within the call, and a fence follows
it immediately, before the LRO flushes. -/
theorem doorbell_fence_order (env : Env) (rq rq1 rqp rqp1 : Rq) (budget : Int)
    (hpost : mlx5e_post_rx_wqes env rq = some rq1)
    (hpoll : mlx5e_poll_rx_cq env rqp budget = some rqp1) :
    doorbells_fenced false (new_events rq rq1) = true ∧
    ∃ pre fl, new_events rqp rqp1 = pre ++ [Event.cqDoorbell rqp1.cq.ci, Event.wmb] ++ fl ∧
      (∀ e ∈ pre, e.isDoorbell = false ∧ e ≠ Event.wmb) ∧
      (∀ e ∈ fl, ∃ x, e = Event.lroFlush x) := by
  constructor
  · unfold mlx5e_post_rx_wqes at hpost
    split_ifs at hpost with hen
    · simp only [Option.some.injEq] at hpost
      subst hpost
      simp [new_events, doorbells_fenced]
    · cases hl : mlx5e_post_rx_wqes_loop env (rq.wq.free_cnt + 1) rq with
      | none => simp [hl] at hpost
      | some rq2 =>
        simp only [hl, Option.some.injEq] at hpost
        obtain ⟨evs, h1, h2⟩ := post_loop_trace env _ rq rq2 hl
        subst hpost
        rw [new_events_eq _ _ (evs ++ [Event.wmb, Event.wqDoorbell rq2.wq.head])
          (by simp [h1])]
        rw [doorbells_fenced_quiet evs _ false h2]
        simp [doorbells_fenced, Event.isDoorbell]
  · obtain ⟨_, _, pre, fl, h1, h2, h3⟩ := poll_rx_cq_inv env rqp rqp1 budget hpoll
    exact ⟨pre, fl, new_events_eq _ _ _ h1, h2, h3⟩

/-- Witness for C7: a post on the empty sample queue and a poll on the one with
pending completions. -/
theorem doorbell_fence_order_witness :
    ∃ rq1 rqp1, mlx5e_post_rx_wqes (env_sample 2 true) rq_sample = some rq1 ∧
      mlx5e_poll_rx_cq (env_sample 2 true) rq_pending 4096 = some rqp1 ∧
      doorbells_fenced false (new_events rq_sample rq1) = true ∧
      ∃ pre fl, new_events rq_pending rqp1 =
          pre ++ [Event.cqDoorbell rqp1.cq.ci, Event.wmb] ++ fl ∧
        (∀ e ∈ pre, e.isDoorbell = false ∧ e ≠ Event.wmb) ∧
        (∀ e ∈ fl, ∃ x, e = Event.lroFlush x) :=
  ⟨_, _, rfl, rfl, doorbell_fence_order (env_sample 2 true) rq_sample _ rq_pending _ 4096 rfl rfl⟩

/-! ## Claims about a single call or a single completion -/

/-- C8: when the receive queue is disabled (`enabled = 0`), `mlx5e_post_rx_wqes`
returns the state it was given, for every queue state: no buffer-pool or DMA
call, no change to the work queue, the descriptors or the slot table, and no
event (so no doorbell store) is added to the trace. -/
theorem post_rx_wqes_disabled_noop (env : Env) (rq : Rq) (h : rq.enabled = 0) :
    mlx5e_post_rx_wqes env rq = some rq := by
  simp [mlx5e_post_rx_wqes, h]

/-- Witness for C8: the sample queue, disabled. -/
theorem post_rx_wqes_disabled_noop_witness :
    mlx5e_post_rx_wqes (env_sample 2 true) { rq_sample with enabled := 0 } =
      some { rq_sample with enabled := 0 } :=
  post_rx_wqes_disabled_noop (env_sample 2 true) { rq_sample with enabled := 0 } rfl

/-- C1: for a completion record whose opcode `op_own >> 4` is not RESP_SEND and
whose slot holds the packet `mb`, the loop body of `mlx5e_poll_rx_cq` returns and
appends exactly three events: the DMA unmap, the free of `mb`, and the pop of
the slot named by `wqe_counter`.  So nothing is passed to `if_input` or offered
to LRO; `wqe_err` grows by one, `packets` and `csum_none` keep their values, the
LRO state is untouched, the slot entry is cleared, and the work queue is the
result of `mlx5_wq_ll_pop`, with the slot at its head. -/
theorem poll_rx_cq_error_completion (env : Env) (rq : Rq) (cqe : Cqe) (mb : Mbuf) (wqe : RxWqe)
    (hop : cqe.op_own >>> 4 ≠ MLX5_CQE_RESP_SEND)
    (hmb : rq.mbuf[be16_to_cpu env cqe.wqe_counter]? = some (some mb))
    (hwqe : rq.wq.wqes[be16_to_cpu env cqe.wqe_counter]? = some wqe) :
    ∃ rq1 wq1, mlx5e_poll_rx_cq_iter env rq cqe = some rq1 ∧
      mlx5_wq_ll_pop env rq.wq cqe.wqe_counter (be16_to_cpu env cqe.wqe_counter) = some wq1 ∧
      rq1.wq = wq1 ∧
      wq1.head = be16_to_cpu env cqe.wqe_counter ∧
      wq1.free_cnt = rq.wq.free_cnt + 1 ∧
      rq1.trace = rq.trace ++
        [Event.dmaUnmap mb.dma_addr (mb.m_len + MLX5E_NET_IP_ALIGN) DmaDir.DMA_FROM_DEVICE,
         Event.mFree mb,
         Event.wqPop (be16_to_cpu env cqe.wqe_counter)] ∧
      rq1.stats.wqe_err = rq.stats.wqe_err + 1 ∧
      rq1.stats.packets = rq.stats.packets ∧
      rq1.stats.csum_none = rq.stats.csum_none ∧
      rq1.lro = rq.lro ∧
      rq1.mbuf = rq.mbuf.set (be16_to_cpu env cqe.wqe_counter) none := by
  simp [mlx5e_poll_rx_cq_iter, hmb, hop, mlx5_wq_ll_pop, hwqe]

/-- Witness for C1: the error completion (`op_own = 0x30`) for slot 1 of the
sample queue. -/
theorem poll_rx_cq_error_completion_witness :
    ∃ rq1 wq1, mlx5e_poll_rx_cq_iter (env_sample 2 true) rq_pending (cqe_sample 1 0x30 0) =
        some rq1 ∧
      mlx5_wq_ll_pop (env_sample 2 true) rq_pending.wq (cqe_sample 1 0x30 0).wqe_counter
        (be16_to_cpu (env_sample 2 true) (cqe_sample 1 0x30 0).wqe_counter) = some wq1 ∧
      rq1.wq = wq1 ∧
      wq1.head = be16_to_cpu (env_sample 2 true) (cqe_sample 1 0x30 0).wqe_counter ∧
      wq1.free_cnt = rq_pending.wq.free_cnt + 1 ∧
      rq1.trace = rq_pending.trace ++
        [Event.dmaUnmap (mbuf_posted 1).dma_addr ((mbuf_posted 1).m_len + MLX5E_NET_IP_ALIGN)
           DmaDir.DMA_FROM_DEVICE,
         Event.mFree (mbuf_posted 1),
         Event.wqPop (be16_to_cpu (env_sample 2 true) (cqe_sample 1 0x30 0).wqe_counter)] ∧
      rq1.stats.wqe_err = rq_pending.stats.wqe_err + 1 ∧
      rq1.stats.packets = rq_pending.stats.packets ∧
      rq1.stats.csum_none = rq_pending.stats.csum_none ∧
      rq1.lro = rq_pending.lro ∧
      rq1.mbuf = rq_pending.mbuf.set
        (be16_to_cpu (env_sample 2 true) (cqe_sample 1 0x30 0).wqe_counter) none :=
  poll_rx_cq_error_completion (env_sample 2 true) rq_pending (cqe_sample 1 0x30 0)
    (mbuf_posted 1) ⟨bswap 2 2, 0⟩ (by decide) (by decide) (by decide)

/-- Witness for C2: the good completion for slot 0 of the sample queue. -/
theorem poll_rx_cq_lro_or_input_witness :
    ∃ rq1 evs, mlx5e_poll_rx_cq_iter (env_sample 2 true) rq_pending (cqe_sample 0 0x20 7) =
        some rq1 ∧ rq1.trace = rq_pending.trace ++ evs ∧
      (evs.countP Event.isLroRx =
        if (mlx5e_build_rx_mbuf (env_sample 2 true) (cqe_sample 0 0x20 7) rq_pending (mbuf_posted 0)).1.csum_flags ≠ 0 ∧
            rq_pending.netdev.if_capenable &&& IFCAP_LRO ≠ 0 ∧ rq_pending.lro.lro_cnt ≠ 0
          then 1 else 0) ∧
      (evs.countP Event.isInput =
        if (mlx5e_build_rx_mbuf (env_sample 2 true) (cqe_sample 0 0x20 7) rq_pending (mbuf_posted 0)).1.csum_flags ≠ 0 ∧
            rq_pending.netdev.if_capenable &&& IFCAP_LRO ≠ 0 ∧ rq_pending.lro.lro_cnt ≠ 0 ∧
            ((env_sample 2 true).tcp_lro_rx rq_pending.lro
              (mlx5e_build_rx_mbuf (env_sample 2 true) (cqe_sample 0 0x20 7) rq_pending (mbuf_posted 0)).1).1 = 0
          then 0 else 1) ∧
      (∀ e ∈ evs, e.isLroRx = true → e = Event.lroRx
        (mlx5e_build_rx_mbuf (env_sample 2 true) (cqe_sample 0 0x20 7) rq_pending (mbuf_posted 0)).1
        ((env_sample 2 true).tcp_lro_rx rq_pending.lro
          (mlx5e_build_rx_mbuf (env_sample 2 true) (cqe_sample 0 0x20 7) rq_pending (mbuf_posted 0)).1).1) ∧
      (∀ e ∈ evs, e.isInput = true → e = Event.ifInput
        (mlx5e_build_rx_mbuf (env_sample 2 true) (cqe_sample 0 0x20 7) rq_pending (mbuf_posted 0)).1) :=
  poll_rx_cq_lro_or_input (env_sample 2 true) rq_pending (cqe_sample 0 0x20 7) (mbuf_posted 0)
    ⟨bswap 2 1, 0⟩ (by decide) (by decide) (by decide)

end Mlx5
